import Mathlib

/-!
RGBShadesAudio: coordinate map, audio front-end, beat detector, effects.

A shallow embedding of `XYmap_panel.h`, `audio.h` and `effects.h`.

Conventions of the embedding

* `uint8_t` / `byte`, `unsigned int` (16 bit on the AVR target) and
  `unsigned long` (32 bit) values are natural numbers; every operation that
  can wrap carries an explicit `% 2^w` (`u8`, `u16`, `u32`).  The signed
  16-bit `int analogsum` is an integer re-normalised by `i16`.
* `float` and `double` values are rationals, and `audio.h` is embedded
  twice.  `doAnalogs` and `beatDetect` carry out every operation without
  rounding; the results about them (the clamp of the gain, silence, the
  spacing of beat events, the calibration) do not depend on rounding.
  `doAnalogsFl` and `beatDetectFl` round every operation as the C types
  prescribe, to IEEE binary32 `float` and binary64 `double` (`host`), or to a
  32-bit `double` (`avr`); the results about the values the code computes
  (the one-cycle lag of the gain, the steady state under constant input, the
  transitions of the beat detector) are about these.
* The float to unsigned conversion in `spectrumValue[i] *= gainAGC`
  truncates, which on the non-negative values that occur is the floor.
* C arrays of fixed size are functions from `Fin n`.
* Function-local `static` variables and the globals an effect touches are
  fields of an explicit state record that is passed through each call.
-/

set_option maxRecDepth 100000

namespace RGBShades

/-! ## Machine integers -/

/-- Wrap to an unsigned 8-bit value. -/
def u8 (n : Nat) : Nat := n % 256

/-- Wrap to an unsigned 16-bit value. -/
def u16 (n : Nat) : Nat := n % 65536

/-- Wrap to an unsigned 32-bit value. -/
def u32 (n : Nat) : Nat := n % 4294967296

/-- Reinterpret the low 16 bits of a number as a signed 16-bit `int`. -/
def i16 (n : Nat) : Int :=
  if n % 65536 < 32768 then ((n % 65536 : Nat) : Int) else ((n % 65536 : Nat) : Int) - 65536

/-! ## XYmap_panel.h -/

def kMatrixWidth : Nat := 15
def kMatrixHeight : Nat := 15

/-- The macro `NUM_LEDS (kMatrixWidth * kMatrixHeight)`, the size of `leds`. -/
def NUM_LEDS : Nat := kMatrixWidth * kMatrixHeight

def LAST_VISIBLE_LED : Nat := 217

/-- The local table of `XY`, row by row as in the source. -/
def ShadesTable : List Nat := [
    14, 218, 43, 219, 72, 220, 101, 221, 130, 222, 159, 223, 188, 224, 217,
    13,  15, 42,  44, 71,  73, 100, 102, 129, 131, 158, 160, 187, 189, 216,
    12,  16, 41,  45, 70,  74,  99, 103, 128, 132, 157, 161, 186, 190, 215,
    11,  17, 40,  46, 69,  75,  98, 104, 127, 133, 156, 162, 185, 191, 214,
    10,  18, 39,  47, 68,  76,  97, 105, 126, 134, 155, 163, 184, 192, 213,
    9,  19, 38,  48, 67,  77,  96, 106, 125, 135, 154, 164, 183, 193, 212,
    8,  20, 37,  49, 66,  78,  95, 107, 124, 136, 153, 165, 182, 194, 211,
    7,  21, 36,  50, 65,  79,  94, 108, 123, 137, 152, 166, 181, 195, 210,
    6,  22, 35,  51, 64,  80,  93, 109, 122, 138, 151, 167, 180, 196, 209,
    5,  23, 34,  52, 63,  81,  92, 110, 121, 139, 150, 168, 179, 197, 208,
    4,  24, 33,  53, 62,  82,  91, 111, 120, 140, 149, 169, 178, 198, 207,
    3,  25, 32,  54, 61,  83,  90, 112, 119, 141, 148, 170, 177, 199, 206,
    2,  26, 31,  55, 60,  84,  89, 113, 118, 142, 147, 171, 176, 200, 205,
    1,  27, 30,  56, 59,  85,  88, 114, 117, 143, 146, 172, 175, 201, 204,
    0,  28, 29,  57, 58,  86,  87, 115, 116, 144, 145, 173, 174, 202, 203]

/-- The function `uint8_t XY(uint8_t x, uint8_t y)`.  The position `i` is
computed in 8 bits as in the source; a read outside the table (undefined
behaviour in C) is `none`. -/
def XY (x y : Nat) : Option Nat :=
  if x ≥ kMatrixWidth ∨ y ≥ kMatrixHeight then
    some (u8 (LAST_VISIBLE_LED + 1))
  else
    let i := u8 (y * kMatrixWidth + x)
    ShadesTable[i]?

/-! ## audio.h : doAnalogs -/

def SPECTRUMSMOOTH : ℚ := 8 / 100
def PEAKDECAY : ℚ := 1 / 100

/-- The macro `NOISEFLOOR`.  The header defines it twice (65, then 200); the
later definition is the one in force where `doAnalogs` is compiled. -/
def NOISEFLOOR : Nat := 200

def AGCSMOOTH : ℚ := 4 / 1000
def GAINUPPERLIMIT : ℚ := 15
def GAINLOWERLIMIT : ℚ := 1 / 10

/-- The table `spectrumFactors[7]` of `doAnalogs`. -/
def spectrumFactors : Fin 7 → Nat := ![9, 11, 13, 13, 12, 12, 13]

/-- The globals of `audio.h` that `doAnalogs` reads and writes. -/
structure AudioState where
  spectrumValue : Fin 7 → Nat
  prev_value : Fin 7 → ℚ
  spectrumDecay : Fin 7 → ℚ
  spectrumPeaks : Fin 7 → ℚ
  audioAvg : ℚ
  gainAGC : ℚ

/-- The initial values of the globals: arrays zeroed, `audioAvg = 270.0`,
`gainAGC = 0.0`. -/
def audioInit : AudioState :=
  { spectrumValue := fun _ => 0
    prev_value := fun _ => 0
    spectrumDecay := fun _ => 0
    spectrumPeaks := fun _ => 0
    audioAvg := 270
    gainAGC := 0 }

/-- The unsigned 16-bit value of `spectrumValue[i]` after the noise floor
has been removed and the correction factor of band `i` applied; `raw` is
what `analogRead` returned.  This is the value added to `analogsum`. -/
def calibrated (i : Fin 7) (raw : Nat) : Nat :=
  let v := u16 raw
  let v := if v < NOISEFLOOR then 0 else u16 (v - NOISEFLOOR)
  u16 (v * spectrumFactors i) / 10

/-- One iteration of the `for` loop of `doAnalogs` for band `i`; the
accumulator is the globals together with the local `analogsum`. -/
def analogBand (raw : Fin 7 → Nat) (acc : AudioState × Int) (i : Fin 7) : AudioState × Int :=
  let s := acc.1
  let analogsum := acc.2
  let prev := Function.update s.prev_value i (s.spectrumValue i : ℚ)
  let v := calibrated i (raw i)
  let analogsum := i16 (Int.toNat ((analogsum + (v : Int)) % 65536))
  let v := u16 ⌊(v : ℚ) * s.gainAGC⌋₊
  let d := (1 - SPECTRUMSMOOTH) * s.spectrumDecay i + SPECTRUMSMOOTH * (v : ℚ)
  let p := if s.spectrumPeaks i < d then d else s.spectrumPeaks i
  let p := p * (1 - PEAKDECAY)
  ({ s with
      spectrumValue := Function.update s.spectrumValue i v
      prev_value := prev
      spectrumDecay := Function.update s.spectrumDecay i d
      spectrumPeaks := Function.update s.spectrumPeaks i p }, analogsum)

/-- The function `void doAnalogs()`; `raw i` is the reading `analogRead`
returns for band `i` in this call. -/
def doAnalogs (raw : Fin 7 → Nat) (s : AudioState) : AudioState :=
  let r := ([0, 1, 2, 3, 4, 5, 6] : List (Fin 7)).foldl (analogBand raw) (s, 0)
  let s1 := r.1
  let analogsum := r.2
  let audioAvg := (1 - AGCSMOOTH) * s1.audioAvg + AGCSMOOTH * ((analogsum : ℚ) / 7)
  let g := 270 / audioAvg
  let g := if g > GAINUPPERLIMIT then GAINUPPERLIMIT else g
  let g := if g < GAINLOWERLIMIT then GAINLOWERLIMIT else g
  { s1 with audioAvg := audioAvg, gainAGC := g }

/-- Consecutive calls of `doAnalogs`, one per element of `inputs`. -/
def runAnalogs (s : AudioState) (inputs : List (Fin 7 → Nat)) : AudioState :=
  inputs.foldl (fun st raw => doAnalogs raw st) s

/-- The state after `n` calls of `doAnalogs` that all read the same `raw`. -/
def holdAnalogs (raw : Fin 7 → Nat) (n : Nat) : AudioState :=
  runAnalogs audioInit (List.replicate n raw)

/-- A reading is an ADC value when every band is at most 1023 (10 bits). -/
def IsADC (raw : Fin 7 → Nat) : Prop := ∀ i, raw i ≤ 1023

/-- All seven bands read 0. -/
def silence : Fin 7 → Nat := fun _ => 0

/-- All seven bands read 500. -/
def reading500 : Fin 7 → Nat := fun _ => 500

def beatLevel : ℚ := 20
def beatDeadzone : ℚ := 30
def beatDelay : Nat := 50

/-- The globals `beatTriggered`, `lastBeatVal` and the statics `beatAvg`,
`lastBeatMillis` of `beatDetect`. -/
structure BeatState where
  beatTriggered : Nat
  lastBeatVal : ℚ
  beatAvg : ℚ
  lastBeatMillis : Nat

/-- The initial values: all zero (statics are zero-initialised). -/
def beatInit : BeatState :=
  { beatTriggered := 0, lastBeatVal := 0, beatAvg := 0, lastBeatMillis := 0 }

/-- The function `byte beatDetect()`: the new state and the returned byte.
The global `currentMillis` (declared outside the three headers) and the
decayed spectrum are arguments. -/
def beatDetect (spectrumDecay : Fin 7 → ℚ) (currentMillis : Nat) (b : BeatState) :
    BeatState × Nat :=
  let specCombo := (spectrumDecay 0 + spectrumDecay 1) / 2
  let beatAvg := (1 - AGCSMOOTH) * b.beatAvg + AGCSMOOTH * specCombo
  let lastBeatVal := if b.lastBeatVal < beatAvg then beatAvg else b.lastBeatVal
  if specCombo - beatAvg > beatLevel ∧ b.beatTriggered = 0 ∧
      u32 (currentMillis + 4294967296 - b.lastBeatMillis) > beatDelay then
    ({ beatTriggered := 1, lastBeatVal := specCombo, beatAvg := beatAvg,
       lastBeatMillis := currentMillis }, 1)
  else if lastBeatVal - specCombo > beatDeadzone then
    ({ beatTriggered := 0, lastBeatVal := lastBeatVal, beatAvg := beatAvg,
       lastBeatMillis := b.lastBeatMillis }, 0)
  else
    ({ beatTriggered := b.beatTriggered, lastBeatVal := lastBeatVal, beatAvg := beatAvg,
       lastBeatMillis := b.lastBeatMillis }, 0)

/-- What one call of `beatDetect` reads from outside. -/
structure BeatInput where
  spectrumDecay : Fin 7 → ℚ
  currentMillis : Nat

/-- Consecutive calls of `beatDetect`: the byte each call returned, in call
order. -/
def beatRun : BeatState → List BeatInput → List Nat
  | _, [] => []
  | b, i :: rest =>
      let r := beatDetect i.spectrumDecay i.currentMillis b
      r.2 :: beatRun r.1 rest

/-- The clock values of the calls are non-decreasing 32-bit values. -/
def ClockOK : List BeatInput → Prop
  | [] => True
  | i :: rest => i.currentMillis < 4294967296 ∧ (∀ j ∈ rest, i.currentMillis ≤ j.currentMillis) ∧
      ClockOK rest

/-- Three calls with a loud low band at times 100, 120 and 400. -/
def beatSample : List BeatInput :=
  [ { spectrumDecay := fun _ => 100, currentMillis := 100 },
    { spectrumDecay := fun _ => 0, currentMillis := 120 },
    { spectrumDecay := fun _ => 100, currentMillis := 400 } ]

/-- The composite signal in the words of the claim: the mean of the decayed
bands 0 and 1. -/
def beatComposite (d : Fin 7 → ℚ) : ℚ := (d 0 + d 1) / 2

/-- The updated rolling average in the words of the claim:
`(1 - 0.004) * beatAvg + 0.004 * composite`. -/
def beatAvgNext (d : Fin 7 → ℚ) (b : BeatState) : ℚ :=
  (1 - 4 / 1000) * b.beatAvg + 4 / 1000 * beatComposite d

/-- A decayed spectrum with every band at 100. -/
def loudDecay : Fin 7 → ℚ := fun _ => 100

/-! ## Floating-point arithmetic

`float` is IEEE binary32 and `double` is IEEE binary64 (`host`), every
operation rounded to nearest, ties to even, with gradual underflow.  Values
never come near the overflow threshold, so infinities are not represented;
the one division by a variable, `270.0 / audioAvg`, treats a zero divisor
explicitly.  `avr` is the target whose `double` is the 32-bit `float`, and
`unrounded` is the arithmetic without rounding that `doAnalogs` and
`beatDetect` above use. -/

/-- Auxiliary for `ilog2`: halve `n` until it is below 2, at most `fuel`
times. -/
def log2Fuel : Nat → Nat → Nat
  | 0, _ => 0
  | fuel + 1, n => if n < 2 then 0 else log2Fuel fuel (n / 2) + 1

/-- The integer binary logarithm: `2 ^ ilog2 n ≤ n < 2 ^ (ilog2 n + 1)` for
`n > 0`. -/
def ilog2 (n : Nat) : Nat := log2Fuel n n

/-- The rational `2 ^ k` for an integer exponent `k`. -/
def pow2 (k : Int) : ℚ :=
  if 0 ≤ k then ((2 ^ k.toNat : Nat) : ℚ) else 1 / ((2 ^ (-k).toNat : Nat) : ℚ)

/-- The binade of a non-zero rational `x`: the exponent `e` with
`2 ^ e ≤ |x| < 2 ^ (e + 1)`. -/
def binade (x : ℚ) : Int :=
  let e0 : Int := (ilog2 x.num.natAbs : Int) - (ilog2 x.den : Int)
  if pow2 e0 ≤ |x| then e0 else e0 - 1

/-- Round to the nearest integer, a tie to the even one. -/
def roundEven (q : ℚ) : Int :=
  let f := ⌊q⌋
  let r := q - f
  if r < 1 / 2 then f else if 1 / 2 < r then f + 1 else if f % 2 = 0 then f else f + 1

/-- Round to the nearest binary floating-point number with `p` significant
bits and least normal exponent `emin`, ties to even, with gradual underflow
and without an overflow threshold. -/
def roundFloat (p : Nat) (emin : Int) (x : ℚ) : ℚ :=
  if x = 0 then 0
  else
    let e := max (binade x) emin
    let u := pow2 (e - ((p : Int) - 1))
    (roundEven (x / u) : ℚ) * u

/-- Rounding to IEEE binary32. -/
def f32 (x : ℚ) : ℚ := roundFloat 24 (-126) x

/-- Rounding to IEEE binary64. -/
def f64 (x : ℚ) : ℚ := roundFloat 53 (-1022) x

/-- How the platform rounds: `single` rounds a real result to `float`,
`double` rounds it to `double`. -/
structure Rounding where
  single : ℚ → ℚ
  double : ℚ → ℚ

/-- IEEE binary32 `float` with IEEE binary64 `double`. -/
def host : Rounding := { single := f32, double := f64 }

/-- A target whose `double` is the 32-bit `float`. -/
def avr : Rounding := { single := f32, double := f32 }

/-- No rounding at all. -/
def unrounded : Rounding := { single := id, double := id }

/-- A decimal literal such as `0.08`; its type is `double`. -/
def Rounding.lit (R : Rounding) (x : ℚ) : ℚ := R.double x

/-- A constant expression `(1.0 - x)` for a literal `x`, evaluated in
`double`. -/
def Rounding.oneMinus (R : Rounding) (x : ℚ) : ℚ := R.double (1 - R.double x)

/-! ## audio.h with rounding

The same functions as above with every floating-point operation rounded as
the C types prescribe: an operation with a `double` operand (a literal or a
constant expression) is carried out in `double`, an operation on two `float`
operands in `float`, and a value stored in a `float` variable is rounded to
`float`. -/

/-- The statement `spectrumValue[i] *= gainAGC`: the calibrated value `c` is
converted to `float`, multiplied by the `float` gain, and the `float` product
is truncated to `unsigned int`. -/
def gained (R : Rounding) (c : Nat) (g : ℚ) : Nat :=
  u16 ⌊R.single (R.single (c : ℚ) * g)⌋₊

/-- The new `spectrumDecay[i]`:
`(1.0 - SPECTRUMSMOOTH) * spectrumDecay[i] + SPECTRUMSMOOTH * spectrumValue[i]`
with `d` the old decayed value and `v` the gained `spectrumValue[i]`. -/
def decayStep (R : Rounding) (d : ℚ) (v : Nat) : ℚ :=
  R.single (R.double (R.double (R.oneMinus SPECTRUMSMOOTH * d) +
    R.double (R.lit SPECTRUMSMOOTH * R.double (v : ℚ))))

/-- The new `spectrumPeaks[i]` from the old peak `p` and the new decayed
value `d`: raised to `d` if below it, then multiplied by `(1.0 - PEAKDECAY)`. -/
def peakStep (R : Rounding) (p d : ℚ) : ℚ :=
  let p := if p < d then d else p
  R.single (R.double (p * R.oneMinus PEAKDECAY))

/-- The new `audioAvg`:
`(1.0 - AGCSMOOTH) * audioAvg + AGCSMOOTH * (analogsum / 7.0)`. -/
def avgStep (R : Rounding) (analogsum : Int) (a : ℚ) : ℚ :=
  R.single (R.double (R.double (R.oneMinus AGCSMOOTH * a) +
    R.double (R.lit AGCSMOOTH * R.double ((analogsum : ℚ) / 7))))

/-- The new `gainAGC` from the new `audioAvg`: `270.0 / audioAvg` stored as
`float`, then the two clamps.  A zero `audioAvg` gives `+infinity`, which the
upper clamp replaces by `GAINUPPERLIMIT`. -/
def gainOf (R : Rounding) (a : ℚ) : ℚ :=
  let g := if a = 0 then GAINUPPERLIMIT
    else
      let q := R.single (R.double (270 / a))
      if q > GAINUPPERLIMIT then GAINUPPERLIMIT else q
  if g < R.lit GAINLOWERLIMIT then R.single (R.lit GAINLOWERLIMIT) else g

/-- One iteration of the `for` loop of `doAnalogs` for band `i`, with
rounding. -/
def analogBandFl (R : Rounding) (raw : Fin 7 → Nat) (acc : AudioState × Int) (i : Fin 7) :
    AudioState × Int :=
  let s := acc.1
  let analogsum := acc.2
  let prev := Function.update s.prev_value i (R.single (s.spectrumValue i : ℚ))
  let v := calibrated i (raw i)
  let analogsum := i16 (Int.toNat ((analogsum + (v : Int)) % 65536))
  let v := gained R v s.gainAGC
  let d := decayStep R (s.spectrumDecay i) v
  let p := peakStep R (s.spectrumPeaks i) d
  ({ s with
      spectrumValue := Function.update s.spectrumValue i v
      prev_value := prev
      spectrumDecay := Function.update s.spectrumDecay i d
      spectrumPeaks := Function.update s.spectrumPeaks i p }, analogsum)

/-- The function `void doAnalogs()` with rounding. -/
def doAnalogsFl (R : Rounding) (raw : Fin 7 → Nat) (s : AudioState) : AudioState :=
  let r := ([0, 1, 2, 3, 4, 5, 6] : List (Fin 7)).foldl (analogBandFl R raw) (s, 0)
  let s1 := r.1
  let analogsum := r.2
  let audioAvg := avgStep R analogsum s1.audioAvg
  { s1 with audioAvg := audioAvg, gainAGC := gainOf R audioAvg }

/-- Consecutive calls of `doAnalogsFl`, one per element of `inputs`. -/
def runAnalogsFl (R : Rounding) (s : AudioState) (inputs : List (Fin 7 → Nat)) : AudioState :=
  inputs.foldl (fun st raw => doAnalogsFl R raw st) s

/-- The state after `n` calls of `doAnalogsFl` that all read the same `raw`,
from the initial state. -/
def holdAnalogsFl (R : Rounding) (raw : Fin 7 → Nat) (n : Nat) : AudioState :=
  runAnalogsFl R audioInit (List.replicate n raw)

/-- All seven bands read 462. -/
def reading462 : Fin 7 → Nat := fun _ => 462

/-- All seven bands read 711. -/
def reading711 : Fin 7 → Nat := fun _ => 711

/-- The composite `(spectrumDecay[0] + spectrumDecay[1]) / 2.0` of
`beatDetect`: a `float` sum divided in `double` and stored as `float`. -/
def specComboFl (R : Rounding) (d : Fin 7 → ℚ) : ℚ :=
  R.single (R.double (R.single (d 0 + d 1) / 2))

/-- The new `beatAvg`: `(1.0 - AGCSMOOTH) * beatAvg + AGCSMOOTH * specCombo`. -/
def beatAvgFl (R : Rounding) (d : Fin 7 → ℚ) (b : BeatState) : ℚ :=
  R.single (R.double (R.double (R.oneMinus AGCSMOOTH * b.beatAvg) +
    R.double (R.lit AGCSMOOTH * specComboFl R d)))

/-- The function `byte beatDetect()` with rounding: the differences
`specCombo - beatAvg` and `lastBeatVal - specCombo` are `float` subtractions. -/
def beatDetectFl (R : Rounding) (spectrumDecay : Fin 7 → ℚ) (currentMillis : Nat)
    (b : BeatState) : BeatState × Nat :=
  let specCombo := specComboFl R spectrumDecay
  let beatAvg := beatAvgFl R spectrumDecay b
  let lastBeatVal := if b.lastBeatVal < beatAvg then beatAvg else b.lastBeatVal
  if R.single (specCombo - beatAvg) > beatLevel ∧ b.beatTriggered = 0 ∧
      u32 (currentMillis + 4294967296 - b.lastBeatMillis) > beatDelay then
    ({ beatTriggered := 1, lastBeatVal := specCombo, beatAvg := beatAvg,
       lastBeatMillis := currentMillis }, 1)
  else if R.single (lastBeatVal - specCombo) > beatDeadzone then
    ({ beatTriggered := 0, lastBeatVal := lastBeatVal, beatAvg := beatAvg,
       lastBeatMillis := b.lastBeatMillis }, 0)
  else
    ({ beatTriggered := b.beatTriggered, lastBeatVal := lastBeatVal, beatAvg := beatAvg,
       lastBeatMillis := b.lastBeatMillis }, 0)

/-- A decayed spectrum with every band at `10 - 2^-20`, a `float` value. -/
def nearTenDecay : Fin 7 → ℚ := fun _ => 10 - 1 / 1048576

/-- A triggered detector whose `lastBeatVal` is 40. -/
def triggeredAt40 : BeatState :=
  { beatTriggered := 1, lastBeatVal := 40, beatAvg := 0, lastBeatMillis := 0 }

/-- What the steady-state results use of a rounding: both roundings fix 0
and 1 and preserve the order of non-negative numbers, every `float` is a
multiple of one least positive value, and five concrete evaluations that bound
the state: the average stays at or below 2048, a decayed value at or below
65536, the largest gained product fits 16 bits, a mean calibrated value of 270
does not raise the initial average, and the lower gain limit is at most 1. -/
structure Rounding.Regular (R : Rounding) : Prop where
  single_zero : R.single 0 = 0
  double_zero : R.double 0 = 0
  single_one : R.single 1 = 1
  double_one : R.double 1 = 1
  single_mono : ∀ x y, 0 ≤ x → x ≤ y → R.single x ≤ R.single y
  double_mono : ∀ x y, 0 ≤ x → x ≤ y → R.double x ≤ R.double y
  grid : ∃ δ : ℚ, 0 < δ ∧ ∀ x, ∃ k : Int, R.single x = (k : ℚ) * δ
  avg_bound : avgStep R 7483 2048 ≤ 2048
  decay_bound : decayStep R 65536 65535 ≤ 65536
  gained_bound : R.single (R.single 1069 * 15) < 65536
  quiet_base : avgStep R 1890 270 ≤ 270
  low_limit : R.lit GAINLOWERLIMIT ≤ 1

/-- The audio state after 15 calls that all read 711 on every band; its
gain is `15642813 / 2^24`. -/
def state711 : AudioState := holdAnalogsFl host reading711 15

def charSpacing : Nat := 2

/-- The control state shared by the effects. -/
structure EffectState where
  effectInit : Bool
  effectDelay : Nat
  setupRuns : Nat
  sineOffset : Nat
  offset : Nat
  plasVector : Int
  riderPos : Nat
  currentColor : Nat
  currentRow : Nat
  currentDirection : Nat
  slantPos : Nat
  currentMessageChar : Nat
  currentCharColumn : Nat
  paletteCycle : Nat
  bitBuffer : Fin 16 → Nat
  bitBufferPointer : Nat
  charBuffer : Fin 5 → Nat
  RGBcycle : Nat
  beat : BeatState

/-- What one call of an effect reads from outside `effects.h`: the value
`random8(3, 6)` would return, the decayed spectrum and clock seen by
`beatDetect`, and the absent helpers `loadStringChar(message, index)` and
`loadCharBuffer(character)` (the latter as the five glyph columns it
stores). -/
structure EffectEnv where
  random8 : Nat
  spectrumDecay : Fin 7 → ℚ
  currentMillis : Nat
  loadStringChar : Nat → Nat → Nat
  loadCharBuffer : Nat → Fin 5 → Nat

/-- The index `n % kMatrixWidth` into the 16-entry `bitBuffer`. -/
def bitIndex (n : Nat) : Fin 16 :=
  ⟨n % kMatrixWidth, Nat.lt_trans (Nat.mod_lt n (by decide)) (by decide)⟩

def threeSine (s : EffectState) : EffectState :=
  let s := if s.effectInit = false then
      { s with effectInit := true, effectDelay := 20, setupRuns := s.setupRuns + 1 }
    else s
  { s with sineOffset := u8 (s.sineOffset + 1) }

def plasma (s : EffectState) : EffectState :=
  let s := if s.effectInit = false then
      { s with effectInit := true, effectDelay := 10, setupRuns := s.setupRuns + 1 }
    else s
  { s with
      offset := u8 (s.offset + 1)
      plasVector := i16 (Int.toNat ((s.plasVector + 16) % 65536)) }

def rider (s : EffectState) : EffectState :=
  let s := if s.effectInit = false then
      { s with effectInit := true, effectDelay := 5, riderPos := 0,
               setupRuns := s.setupRuns + 1 }
    else s
  { s with riderPos := u8 (s.riderPos + 1) }

def glitter (s : EffectState) : EffectState :=
  if s.effectInit = false then
    { s with effectInit := true, effectDelay := 15, setupRuns := s.setupRuns + 1 }
  else s

def colorFill (env : EffectEnv) (s : EffectState) : EffectState :=
  let s := if s.effectInit = false then
      { s with effectInit := true, effectDelay := 45, currentColor := 0, currentRow := 0,
               currentDirection := 0, setupRuns := s.setupRuns + 1 }
    else s
  let s := if s.currentDirection &&& 1 = 0 then { s with effectDelay := 45 } else s
  let s := if s.currentDirection &&& 1 ≠ 0 then { s with effectDelay := 20 } else s
  let s := { s with currentRow := u8 (s.currentRow + 1) }
  if (s.currentDirection &&& 1 = 0 ∧ s.currentRow ≥ kMatrixHeight) ∨
      (s.currentDirection &&& 1 ≠ 0 ∧ s.currentRow ≥ kMatrixWidth) then
    let c := u8 (s.currentColor + env.random8)
    let c := if c > 15 then u8 (c + 256 - 16) else c
    let d := u8 (s.currentDirection + 1)
    let d := if d > 3 then 0 else d
    { s with currentRow := 0, currentColor := c, currentDirection := d, effectDelay := 300 }
  else s

def threeDee (s : EffectState) : EffectState :=
  if s.effectInit = false then
    { s with effectInit := true, effectDelay := 50, setupRuns := s.setupRuns + 1 }
  else s

def sideRain (s : EffectState) : EffectState :=
  if s.effectInit = false then
    { s with effectInit := true, effectDelay := 30, setupRuns := s.setupRuns + 1 }
  else s

def confetti (s : EffectState) : EffectState :=
  if s.effectInit = false then
    { s with effectInit := true, effectDelay := 10, setupRuns := s.setupRuns + 1 }
  else s

def slantBars (s : EffectState) : EffectState :=
  let s := if s.effectInit = false then
      { s with effectInit := true, effectDelay := 5, setupRuns := s.setupRuns + 1 }
    else s
  { s with slantPos := u8 (s.slantPos + 256 - 4) }

/-- The function `scrollText(message, style, fgColor, bgColor)`; `style` and
the two colours only select pixel colours. -/
def scrollText (message : Nat) (env : EffectEnv) (s : EffectState) : EffectState :=
  let s := if s.effectInit = false then
      { s with
          effectInit := true
          effectDelay := 35
          currentMessageChar := 0
          currentCharColumn := 0
          charBuffer := env.loadCharBuffer (env.loadStringChar message 0)
          bitBuffer := fun i => if i.val < kMatrixWidth then 0 else s.bitBuffer i
          setupRuns := s.setupRuns + 1 }
    else s
  let s := { s with paletteCycle := u8 (s.paletteCycle + 15) }
  let column := if h : s.currentCharColumn < 5 then s.charBuffer ⟨s.currentCharColumn, h⟩ else 0
  let s := { s with
      bitBuffer := Function.update s.bitBuffer (bitIndex (s.bitBufferPointer + kMatrixWidth - 1))
        column }
  let s := { s with currentCharColumn := u8 (s.currentCharColumn + 1) }
  let s := if s.currentCharColumn > 4 + charSpacing then
      let m := u8 (s.currentMessageChar + 1)
      let nextChar := env.loadStringChar message m
      if nextChar = 0 then
        { s with currentCharColumn := 0, currentMessageChar := 0,
                 charBuffer := env.loadCharBuffer (env.loadStringChar message 0) }
      else
        { s with currentCharColumn := 0, currentMessageChar := m,
                 charBuffer := env.loadCharBuffer nextChar }
    else s
  let p := u8 (s.bitBufferPointer + 1)
  { s with bitBufferPointer := if p > 15 then 0 else p }

def scrollTextZero (env : EffectEnv) (s : EffectState) : EffectState := scrollText 0 env s
def scrollTextOne (env : EffectEnv) (s : EffectState) : EffectState := scrollText 1 env s
def scrollTextTwo (env : EffectEnv) (s : EffectState) : EffectState := scrollText 2 env s

def drawAnalyzer (s : EffectState) : EffectState :=
  if s.effectInit = false then
    { s with effectInit := true, effectDelay := 10, setupRuns := s.setupRuns + 1 }
  else s

def drawVU (s : EffectState) : EffectState :=
  if s.effectInit = false then
    { s with effectInit := true, effectDelay := 10, setupRuns := s.setupRuns + 1 }
  else s

def RGBpulse (env : EffectEnv) (s : EffectState) : EffectState :=
  let s := if s.effectInit = false then
      { s with effectInit := true, effectDelay := 1, setupRuns := s.setupRuns + 1 }
    else s
  let r := beatDetect env.spectrumDecay env.currentMillis s.beat
  let s := { s with beat := r.1 }
  if r.2 ≠ 0 then
    let c := u8 (s.RGBcycle + 1)
    { s with RGBcycle := if c > 2 then 0 else c }
  else s

def heartPulse (s : EffectState) : EffectState :=
  if s.effectInit = false then
    { s with effectInit := true, effectDelay := 10, setupRuns := s.setupRuns + 1 }
  else s

/-- The parameterless effect functions of `effects.h`. -/
inductive Effect where
  | threeSine | plasma | rider | glitter | colorFill | threeDee | sideRain | confetti
  | slantBars | scrollTextZero | scrollTextOne | scrollTextTwo | drawAnalyzer | drawVU
  | RGBpulse | heartPulse
  deriving DecidableEq, Repr

/-- One call of the effect `e` through its function pointer. -/
def Effect.call (e : Effect) (env : EffectEnv) (s : EffectState) : EffectState :=
  match e with
  | .threeSine => RGBShades.threeSine s
  | .plasma => RGBShades.plasma s
  | .rider => RGBShades.rider s
  | .glitter => RGBShades.glitter s
  | .colorFill => RGBShades.colorFill env s
  | .threeDee => RGBShades.threeDee s
  | .sideRain => RGBShades.sideRain s
  | .confetti => RGBShades.confetti s
  | .slantBars => RGBShades.slantBars s
  | .scrollTextZero => RGBShades.scrollTextZero env s
  | .scrollTextOne => RGBShades.scrollTextOne env s
  | .scrollTextTwo => RGBShades.scrollTextTwo env s
  | .drawAnalyzer => RGBShades.drawAnalyzer s
  | .drawVU => RGBShades.drawVU s
  | .RGBpulse => RGBShades.RGBpulse env s
  | .heartPulse => RGBShades.heartPulse s

/-- Consecutive calls of the effect `e`, one per element of `envs`. -/
def runEffect (e : Effect) (s : EffectState) (envs : List EffectEnv) : EffectState :=
  envs.foldl (fun st env => e.call env st) s

/-- A sample activation state: `effectInit = false`, statics holding stale
non-zero values from an earlier activation. -/
def staleState : EffectState :=
  { effectInit := false, effectDelay := 300, setupRuns := 0, sineOffset := 7, offset := 9,
    plasVector := 160, riderPos := 200, currentColor := 11, currentRow := 6,
    currentDirection := 3, slantPos := 4, currentMessageChar := 3, currentCharColumn := 2,
    paletteCycle := 30, bitBuffer := fun _ => 21, bitBufferPointer := 5,
    charBuffer := fun _ => 31, RGBcycle := 1, beat := beatInit }

/-- A sample per-call environment. -/
def sampleEnv : EffectEnv :=
  { random8 := 4, spectrumDecay := fun _ => 0, currentMillis := 1000,
    loadStringChar := fun _ i => if i < 3 then 65 + i else 0,
    loadCharBuffer := fun c _ => c }

/-! ### scrollText: what a call displays -/

/-- The Arduino macro `bitRead(value, bit)`: `((value) >> (bit)) & 0x01`. -/
def bitRead (value bit : Nat) : Nat := (value >>> bit) &&& 1

/-- The byte `bitBuffer[(bitBufferPointer + x) % kMatrixWidth]` that the
drawing loop of one call of `scrollText` reads for display column `x`.  The
loop runs after the new column has been stored and before `bitBufferPointer`
is incremented, and nothing later in the call writes `bitBuffer`, so the byte
is read off the buffer the call leaves behind, at the pointer it started
with. -/
def scrollTextColumn (message : Nat) (env : EffectEnv) (s : EffectState) (x : Nat) : Nat :=
  (scrollText message env s).bitBuffer (bitIndex (s.bitBufferPointer + x))

/-- Whether the drawing loop of one call of `scrollText` gives pixel `(x, y)`
the foreground colour: `bitRead(bitBuffer[...], y) == 1`. -/
def scrollTextLit (message : Nat) (env : EffectEnv) (s : EffectState) (x y : Nat) : Bool :=
  bitRead (scrollTextColumn message env s x) y == 1

/-- A running text scroller whose `bitBufferPointer` has reached 15, with
distinct bytes in `bitBuffer` and `charBuffer`. -/
def scrollState15 : EffectState :=
  { staleState with
      effectInit := true
      bitBufferPointer := 15
      bitBuffer := fun i => i.val + 1
      charBuffer := fun j => 16 + j.val
      currentCharColumn := 2 }

/-! ## Theorems: XY -/

theorem ShadesTable_length : ShadesTable.length = 225 := by decide

theorem ShadesTable_nodup : ShadesTable.Nodup := by decide

/-- Inside the grid the 8-bit position does not wrap and `XY` is the table
entry at `y * 15 + x`. -/
theorem XY_in_grid (x y : Nat) (hx : x < 15) (hy : y < 15) :
    XY x y = ShadesTable[y * 15 + x]? := by
  unfold XY
  rw [if_neg (by simp only [kMatrixWidth, kMatrixHeight]; omega)]
  have h : u8 (y * kMatrixWidth + x) = y * 15 + x := by
    simp only [u8, kMatrixWidth]; omega
  simp only [h]

/-- Outside the grid `XY` takes the guard branch. -/
theorem XY_guard (x y : Nat) (h : x ≥ kMatrixWidth ∨ y ≥ kMatrixHeight) :
    XY x y = some 218 := by
  unfold XY
  rw [if_pos h]
  rfl

/-- Every cell of the grid has a table entry below 225. -/
theorem XY_grid_lt : ∀ x, x < 15 → ∀ y, y < 15 → ∃ j, XY x y = some j ∧ j < 225 := by
  decide

/-- C1: for all coordinates with `x ≥ 15` or `y ≥ 15` (in particular all
such 8-bit pairs) `XY x y` returns exactly 218 = `LAST_VISIBLE_LED + 1`. -/
theorem XY_out_of_bounds (x y : Nat) (h : x ≥ kMatrixWidth ∨ y ≥ kMatrixHeight) :
    XY x y = some 218 ∧ 218 = LAST_VISIBLE_LED + 1 :=
  ⟨XY_guard x y h, rfl⟩

theorem XY_out_of_bounds_witness :
    (255 ≥ kMatrixWidth ∨ 3 ≥ kMatrixHeight) ∧ XY 255 3 = some 218 ∧ 218 = LAST_VISIBLE_LED + 1 :=
  ⟨by decide, XY_out_of_bounds 255 3 (by decide)⟩

/-- C2 as stated is false: the in-range cell (1, 0) returns 218, which is
above `LAST_VISIBLE_LED`. -/
theorem XY_in_range_above_last_visible :
    ¬ (∀ x y, x < kMatrixWidth → y < kMatrixHeight →
        ∃ j, XY x y = some j ∧ j ≤ LAST_VISIBLE_LED) := by
  intro h
  obtain ⟨j, hj, hle⟩ := h 1 0 (by decide) (by decide)
  have h1 : XY 1 0 = some 218 := by decide
  rw [h1] at hj
  cases hj
  exact absurd hle (by decide)

/-- C2 amended: every in-range cell returns an index below `NUM_LEDS` (at most
224); the index is at most `LAST_VISIBLE_LED` except at the seven cells of row
0 with odd `x`, which return the hidden indices 218..224. -/
theorem XY_in_range_bound :
    ∀ x, x < kMatrixWidth → ∀ y, y < kMatrixHeight →
      ∃ j, XY x y = some j ∧ j < NUM_LEDS ∧
        (j ≤ LAST_VISIBLE_LED ↔ ¬ (y = 0 ∧ x % 2 = 1)) ∧
        (y = 0 ∧ x % 2 = 1 → j = LAST_VISIBLE_LED + 1 + x / 2) := by
  decide

theorem XY_in_range_bound_witness :
    ∃ j, XY 4 2 = some j ∧ j < NUM_LEDS ∧
        (j ≤ LAST_VISIBLE_LED ↔ ¬ (2 = 0 ∧ 4 % 2 = 1)) ∧
        (2 = 0 ∧ 4 % 2 = 1 → j = LAST_VISIBLE_LED + 1 + 4 / 2) :=
  XY_in_range_bound 4 (by decide) 2 (by decide)

/-- C3: `XY` is injective on the grid: two in-range cells with the same index
are the same cell. -/
theorem XY_injective (x1 y1 x2 y2 : Nat) (hx1 : x1 < kMatrixWidth) (hy1 : y1 < kMatrixHeight)
    (hx2 : x2 < kMatrixWidth) (hy2 : y2 < kMatrixHeight) (h : XY x1 y1 = XY x2 y2) :
    x1 = x2 ∧ y1 = y2 := by
  simp only [kMatrixWidth, kMatrixHeight] at hx1 hy1 hx2 hy2
  rw [XY_in_grid x1 y1 hx1 hy1, XY_in_grid x2 y2 hx2 hy2] at h
  have l1 : y1 * 15 + x1 < ShadesTable.length := by rw [ShadesTable_length]; omega
  have l2 : y2 * 15 + x2 < ShadesTable.length := by rw [ShadesTable_length]; omega
  rw [List.getElem?_eq_getElem l1, List.getElem?_eq_getElem l2, Option.some.injEq] at h
  have hi := (List.Nodup.getElem_inj_iff ShadesTable_nodup).mp h
  omega

theorem XY_injective_witness : XY 3 0 = XY 3 0 ∧ 3 = 3 ∧ 0 = 0 :=
  ⟨rfl, XY_injective 3 0 3 0 (by decide) (by decide) (by decide) (by decide) rfl⟩

/-- C4: for all 8-bit inputs, whenever the lookup is reached the position
`y * 15 + x` fits in 8 bits and lies inside the 225-entry table, `XY` returns
a value, and that value is below `NUM_LEDS` = 225. -/
theorem XY_total_in_bounds (x y : Nat) (hx : x < 256) (hy : y < 256) :
    (¬ (x ≥ kMatrixWidth ∨ y ≥ kMatrixHeight) →
        y * kMatrixWidth + x < 256 ∧ u8 (y * kMatrixWidth + x) < ShadesTable.length) ∧
      ShadesTable.length = NUM_LEDS ∧ NUM_LEDS = 225 ∧
      ∃ j, XY x y = some j ∧ j < NUM_LEDS := by
  refine ⟨?_, by decide, by decide, ?_⟩
  · intro h
    simp only [kMatrixWidth, kMatrixHeight, u8, ShadesTable_length] at h ⊢
    have hlt : y * 15 + x < 225 := by omega
    rw [Nat.mod_eq_of_lt (by omega)]
    exact ⟨by omega, hlt⟩
  · by_cases h : x ≥ kMatrixWidth ∨ y ≥ kMatrixHeight
    · exact ⟨218, XY_guard x y h, by decide⟩
    · simp only [kMatrixWidth, kMatrixHeight, not_or, not_le] at h
      exact XY_grid_lt x h.1 y h.2

theorem XY_total_in_bounds_witness :
    (¬ (14 ≥ kMatrixWidth ∨ 14 ≥ kMatrixHeight) →
        14 * kMatrixWidth + 14 < 256 ∧ u8 (14 * kMatrixWidth + 14) < ShadesTable.length) ∧
      ShadesTable.length = NUM_LEDS ∧ NUM_LEDS = 225 ∧
      ∃ j, XY 14 14 = some j ∧ j < NUM_LEDS :=
  XY_total_in_bounds 14 14 (by decide) (by decide)

/-! ## Theorems: doAnalogs -/

theorem i16_small (x : Int) (h0 : 0 ≤ x) (h1 : x < 32768) :
    i16 (Int.toNat (x % 65536)) = x := by
  have hm : x % 65536 = x := Int.emod_eq_of_lt h0 (by omega)
  rw [hm]
  unfold i16
  have h2 : x.toNat % 65536 = x.toNat := Nat.mod_eq_of_lt (by omega)
  rw [h2]
  have h3 : x.toNat < 32768 := by omega
  rw [if_pos h3]
  omega

theorem calibrated_le (i : Fin 7) (r : Nat) (hr : r ≤ 1023) : calibrated i r ≤ 1069 := by
  have hf : spectrumFactors i ≤ 13 := by fin_cases i <;> decide
  unfold calibrated
  simp only [u16, NOISEFLOOR]
  rw [Nat.mod_eq_of_lt (show r < 65536 by omega)]
  split
  · simp
  · rw [Nat.mod_eq_of_lt (show r - 200 < 65536 by omega)]
    have h1 : (r - 200) * spectrumFactors i ≤ 823 * 13 := Nat.mul_le_mul (by omega) hf
    rw [Nat.mod_eq_of_lt (by omega)]
    omega

theorem calibrated_eq (i : Fin 7) (r : Nat) (hr : r ≤ 1023) :
    calibrated i r = (r - 200) * spectrumFactors i / 10 := by
  have hf : spectrumFactors i ≤ 13 := by fin_cases i <;> decide
  unfold calibrated
  simp only [u16, NOISEFLOOR]
  rw [Nat.mod_eq_of_lt (show r < 65536 by omega)]
  split
  · rename_i h
    have : r - 200 = 0 := by omega
    simp [this]
  · rw [Nat.mod_eq_of_lt (show r - 200 < 65536 by omega)]
    have h1 : (r - 200) * spectrumFactors i ≤ 823 * 13 := Nat.mul_le_mul (by omega) hf
    rw [Nat.mod_eq_of_lt (by omega)]

/-- The fields the loop body leaves alone, and the running sum. -/
theorem analogBand_frame (raw : Fin 7 → Nat) (acc : AudioState × Int) (i : Fin 7) :
    (analogBand raw acc i).1.audioAvg = acc.1.audioAvg ∧
    (analogBand raw acc i).1.gainAGC = acc.1.gainAGC ∧
    (analogBand raw acc i).2 = i16 (Int.toNat ((acc.2 + (calibrated i (raw i) : Int)) % 65536)) :=
  ⟨rfl, rfl, rfl⟩

theorem analogLoop_frame (raw : Fin 7 → Nat) (hraw : IsADC raw) (l : List (Fin 7)) :
    ∀ acc : AudioState × Int, 0 ≤ acc.2 → acc.2 + 1069 * (l.length : Int) < 32768 →
      (l.foldl (analogBand raw) acc).1.audioAvg = acc.1.audioAvg ∧
      (l.foldl (analogBand raw) acc).1.gainAGC = acc.1.gainAGC ∧
      (l.foldl (analogBand raw) acc).2 = acc.2 + ((l.map fun i => calibrated i (raw i)).sum : Nat) := by
  induction l with
  | nil => intro acc _ _; simp
  | cons i rest ih =>
    intro acc h0 h1
    obtain ⟨ha, hg, hs⟩ := analogBand_frame raw acc i
    have hc := calibrated_le i (raw i) (hraw i)
    simp only [List.length_cons, Nat.cast_add, Nat.cast_one] at h1
    have hs2 : (analogBand raw acc i).2 = acc.2 + (calibrated i (raw i) : Int) := by
      rw [hs, i16_small _ (by omega) (by omega)]
    obtain ⟨ia, ig, is⟩ := ih (analogBand raw acc i) (by omega) (by omega)
    rw [List.foldl_cons, ia, ig, is, ha, hg, hs2]
    refine ⟨rfl, rfl, ?_⟩
    simp only [List.map_cons, List.sum_cons, Nat.cast_add]
    ring

theorem analogLoop_gain (raw : Fin 7 → Nat) (l : List (Fin 7)) :
    ∀ acc : AudioState × Int,
      (l.foldl (analogBand raw) acc).1.audioAvg = acc.1.audioAvg ∧
      (l.foldl (analogBand raw) acc).1.gainAGC = acc.1.gainAGC := by
  induction l with
  | nil => intro acc; simp
  | cons i rest ih =>
    intro acc
    obtain ⟨ia, ig⟩ := ih (analogBand raw acc i)
    rw [List.foldl_cons, ia, ig]
    exact ⟨rfl, rfl⟩

/-- A band that the loop does not visit keeps its decayed and peak values. -/
theorem analogLoop_skip (raw : Fin 7 → Nat) (j : Fin 7) (l : List (Fin 7)) :
    ∀ acc : AudioState × Int, j ∉ l →
      (l.foldl (analogBand raw) acc).1.spectrumDecay j = acc.1.spectrumDecay j ∧
      (l.foldl (analogBand raw) acc).1.spectrumPeaks j = acc.1.spectrumPeaks j := by
  induction l with
  | nil => intro acc _; simp
  | cons i rest ih =>
    intro acc hj
    rw [List.mem_cons, not_or] at hj
    obtain ⟨id, ip⟩ := ih (analogBand raw acc i) hj.2
    rw [List.foldl_cons, id, ip]
    simp only [analogBand]
    exact ⟨Function.update_noteq hj.1 _ _, Function.update_noteq hj.1 _ _⟩

/-- The decayed and peak value of band `j` after the loop visited it once. -/
theorem analogLoop_band (raw : Fin 7 → Nat) (j : Fin 7) (l : List (Fin 7)) :
    ∀ acc : AudioState × Int, l.Nodup → j ∈ l →
      (l.foldl (analogBand raw) acc).1.spectrumDecay j =
          (1 - SPECTRUMSMOOTH) * acc.1.spectrumDecay j +
            SPECTRUMSMOOTH * (u16 ⌊(calibrated j (raw j) : ℚ) * acc.1.gainAGC⌋₊ : ℚ) ∧
      (l.foldl (analogBand raw) acc).1.spectrumPeaks j =
          (if acc.1.spectrumPeaks j < (1 - SPECTRUMSMOOTH) * acc.1.spectrumDecay j +
              SPECTRUMSMOOTH * (u16 ⌊(calibrated j (raw j) : ℚ) * acc.1.gainAGC⌋₊ : ℚ)
            then (1 - SPECTRUMSMOOTH) * acc.1.spectrumDecay j +
              SPECTRUMSMOOTH * (u16 ⌊(calibrated j (raw j) : ℚ) * acc.1.gainAGC⌋₊ : ℚ)
            else acc.1.spectrumPeaks j) * (1 - PEAKDECAY) := by
  induction l with
  | nil => intro acc _ hj; simp at hj
  | cons i rest ih =>
    intro acc hnd hj
    rw [List.nodup_cons] at hnd
    rw [List.foldl_cons]
    by_cases hij : j = i
    · subst hij
      obtain ⟨sd, sp⟩ := analogLoop_skip raw j rest (analogBand raw acc j) hnd.1
      rw [sd, sp]
      simp [analogBand]
    · have hjr : j ∈ rest := by
        rcases List.mem_cons.mp hj with h | h
        · exact absurd h hij
        · exact h
      obtain ⟨id, ip⟩ := ih (analogBand raw acc i) hnd.2 hjr
      rw [id, ip]
      simp [analogBand, Function.update_noteq hij]

theorem bands_nodup : ([0, 1, 2, 3, 4, 5, 6] : List (Fin 7)).Nodup := by decide

theorem bands_mem (j : Fin 7) : j ∈ ([0, 1, 2, 3, 4, 5, 6] : List (Fin 7)) := by
  fin_cases j <;> decide

theorem bands_sum (f : Fin 7 → Nat) :
    (([0, 1, 2, 3, 4, 5, 6] : List (Fin 7)).map f).sum = ∑ i, f i := by
  rw [Fin.sum_univ_seven]
  simp only [List.map, List.sum_cons, List.sum_nil]
  ring

/-- What one call of `doAnalogs` does to each global, for ADC readings. -/
theorem doAnalogs_eq (raw : Fin 7 → Nat) (hraw : IsADC raw) (s : AudioState) :
    (doAnalogs raw s).audioAvg =
        (1 - AGCSMOOTH) * s.audioAvg +
          AGCSMOOTH * (((∑ i, calibrated i (raw i) : Nat) : ℚ) / 7) ∧
    (doAnalogs raw s).gainAGC =
        (let g := 270 / (doAnalogs raw s).audioAvg
         let g := if g > GAINUPPERLIMIT then GAINUPPERLIMIT else g
         if g < GAINLOWERLIMIT then GAINLOWERLIMIT else g) ∧
    ∀ j, (doAnalogs raw s).spectrumDecay j =
          (1 - SPECTRUMSMOOTH) * s.spectrumDecay j +
            SPECTRUMSMOOTH * (u16 ⌊(calibrated j (raw j) : ℚ) * s.gainAGC⌋₊ : ℚ) := by
  obtain ⟨fa, _, fs⟩ := analogLoop_frame raw hraw [0, 1, 2, 3, 4, 5, 6] (s, 0) (le_refl _)
    (by norm_num)
  refine ⟨?_, rfl, ?_⟩
  · show (1 - AGCSMOOTH) * _ + AGCSMOOTH * ((_ : ℚ) / 7) = _
    rw [fa, fs, bands_sum]
    simp
  · intro j
    exact (analogLoop_band raw j _ (s, 0) bands_nodup (bands_mem j)).1

theorem holdAnalogs_succ (raw : Fin 7 → Nat) (n : Nat) :
    holdAnalogs raw (n + 1) = doAnalogs raw (holdAnalogs raw n) := by
  simp only [holdAnalogs, runAnalogs, List.replicate_succ', List.foldl_append, List.foldl_cons,
    List.foldl_nil]

theorem doAnalogs_peaks (raw : Fin 7 → Nat) (s : AudioState) (j : Fin 7) :
    (doAnalogs raw s).spectrumPeaks j =
      (if s.spectrumPeaks j < (1 - SPECTRUMSMOOTH) * s.spectrumDecay j +
            SPECTRUMSMOOTH * (u16 ⌊(calibrated j (raw j) : ℚ) * s.gainAGC⌋₊ : ℚ)
       then (1 - SPECTRUMSMOOTH) * s.spectrumDecay j +
            SPECTRUMSMOOTH * (u16 ⌊(calibrated j (raw j) : ℚ) * s.gainAGC⌋₊ : ℚ)
       else s.spectrumPeaks j) * (1 - PEAKDECAY) :=
  (analogLoop_band raw j _ (s, 0) bands_nodup (bands_mem j)).2

theorem silence_isADC : IsADC silence := fun _ => Nat.zero_le _

theorem calibrated_silence (i : Fin 7) : calibrated i (silence i) = 0 := by
  simp [calibrated, silence, u16, NOISEFLOOR]

/-- The state after `n` silent calls: the average decays geometrically, the
decayed and peak values stay 0. -/
theorem silence_state (n : Nat) :
    (holdAnalogs silence n).audioAvg = 270 * (249 / 250 : ℚ) ^ n ∧
      ∀ i, (holdAnalogs silence n).spectrumDecay i = 0 ∧
        (holdAnalogs silence n).spectrumPeaks i = 0 := by
  induction n with
  | zero => simp [holdAnalogs, runAnalogs, audioInit]
  | succ n ih =>
    obtain ⟨ha, hd⟩ := ih
    rw [holdAnalogs_succ]
    obtain ⟨ea, _, ed⟩ := doAnalogs_eq silence silence_isADC (holdAnalogs silence n)
    refine ⟨?_, fun i => ⟨?_, ?_⟩⟩
    · rw [ea, ha]
      simp only [calibrated_silence, Finset.sum_const_zero, AGCSMOOTH]
      rw [pow_succ]
      norm_num
      ring
    · rw [ed i, (hd i).1, calibrated_silence]
      simp [u16]
    · rw [doAnalogs_peaks, (hd i).1, (hd i).2, calibrated_silence]
      simp [u16]

/-- C6: after 1000 calls that all read 0 on every band, `gainAGC` equals
`GAINUPPERLIMIT` = 15 and every `spectrumDecay[i]` and `spectrumPeaks[i]` is 0. -/
theorem silence_1000 :
    (holdAnalogs silence 1000).gainAGC = GAINUPPERLIMIT ∧ GAINUPPERLIMIT = 15 ∧
      ∀ i, (holdAnalogs silence 1000).spectrumDecay i = 0 ∧
        (holdAnalogs silence 1000).spectrumPeaks i = 0 := by
  obtain ⟨ha, hd⟩ := silence_state 1000
  refine ⟨?_, rfl, hd⟩
  have hg := (doAnalogs_eq silence silence_isADC (holdAnalogs silence 999)).2.1
  rw [← holdAnalogs_succ] at hg
  rw [hg, ha]
  have hbig : (15 : ℚ) < 270 / (270 * (249 / 250 : ℚ) ^ 1000) := by
    rw [lt_div_iff₀ (by positivity)]
    norm_num
  simp only [GAINUPPERLIMIT, GAINLOWERLIMIT]
  rw [if_pos hbig, if_neg (by norm_num)]

/-- C9: for every band `i` and every reading `r` in 0..1023 the value added
to `analogsum` is `floor(max(0, r - 200) * f_i / 10)` with
`f = (9, 11, 13, 13, 12, 12, 13)`; over a whole call `analogsum` is the sum of
these seven values; band 0 with `r = 500` gives exactly 270. -/
theorem calibrated_value (raw : Fin 7 → Nat) (hraw : IsADC raw) (s : AudioState) :
    (∀ i, ((calibrated i (raw i) : Nat) : ℤ) =
        ⌊max 0 ((raw i : ℚ) - 200) * ((![9, 11, 13, 13, 12, 12, 13] i : Nat) : ℚ) / 10⌋) ∧
    (([0, 1, 2, 3, 4, 5, 6] : List (Fin 7)).foldl (analogBand raw) (s, 0)).2 =
        ∑ i, ⌊max 0 ((raw i : ℚ) - 200) * ((![9, 11, 13, 13, 12, 12, 13] i : Nat) : ℚ) / 10⌋ ∧
    (∀ i acc, (analogBand raw acc i).2 =
        i16 (Int.toNat ((acc.2 + (calibrated i (raw i) : Int)) % 65536))) ∧
    (raw 0 = 500 → calibrated 0 (raw 0) = 270) := by
  have hfl : ∀ i, ((calibrated i (raw i) : Nat) : ℤ) =
      ⌊max 0 ((raw i : ℚ) - 200) * ((![9, 11, 13, 13, 12, 12, 13] i : Nat) : ℚ) / 10⌋ := by
    intro i
    rw [calibrated_eq i (raw i) (hraw i)]
    have hmax : max 0 ((raw i : ℚ) - 200) = ((raw i - 200 : Nat) : ℚ) := by
      by_cases h : raw i ≤ 200
      · have h0 : raw i - 200 = 0 := by omega
        have h1 : ((raw i : ℚ) - 200) ≤ 0 := by
          have : (raw i : ℚ) ≤ 200 := by exact_mod_cast h
          linarith
        rw [h0, max_eq_left h1]
        simp
      · have h1 : (0 : ℚ) ≤ (raw i : ℚ) - 200 := by
          have : (200 : ℚ) ≤ raw i := by exact_mod_cast (by omega : 200 ≤ raw i)
          linarith
        rw [max_eq_right h1, Nat.cast_sub (by omega)]
        simp
    rw [hmax]
    have hspec : spectrumFactors i = ![9, 11, 13, 13, 12, 12, 13] i := rfl
    rw [← hspec, ← Nat.cast_mul]
    have := Rat.floor_natCast_div_natCast ((raw i - 200) * spectrumFactors i) 10
    rw [show ((10 : ℕ) : ℚ) = 10 by norm_num] at this
    rw [this]
    norm_cast
  refine ⟨hfl, ?_, fun i acc => rfl, ?_⟩
  · obtain ⟨_, _, fs⟩ := analogLoop_frame raw hraw [0, 1, 2, 3, 4, 5, 6] (s, 0) (le_refl _)
      (by norm_num)
    rw [fs, bands_sum]
    simp only [zero_add, Nat.cast_sum]
    exact Finset.sum_congr rfl (fun i _ => hfl i)
  · intro h
    rw [h]
    decide

theorem calibrated_value_witness :
    (∀ i, ((calibrated i (reading500 i) : Nat) : ℤ) =
        ⌊max 0 ((reading500 i : ℚ) - 200) * ((![9, 11, 13, 13, 12, 12, 13] i : Nat) : ℚ) / 10⌋) ∧
    (([0, 1, 2, 3, 4, 5, 6] : List (Fin 7)).foldl (analogBand reading500) (audioInit, 0)).2 =
        ∑ i, ⌊max 0 ((reading500 i : ℚ) - 200) *
          ((![9, 11, 13, 13, 12, 12, 13] i : Nat) : ℚ) / 10⌋ ∧
    (∀ i acc, (analogBand reading500 acc i).2 =
        i16 (Int.toNat ((acc.2 + (calibrated i (reading500 i) : Int)) % 65536))) ∧
    (reading500 0 = 500 → calibrated 0 (reading500 0) = 270) :=
  calibrated_value reading500 (fun _ => by simp [reading500]) audioInit

/-! ## Theorems: beatDetect -/

/-- One call: a returned 1 means the refractory test passed and the stamp is
the clock; otherwise the stamp is unchanged. -/
theorem beatDetect_stamp (d : Fin 7 → ℚ) (now : Nat) (b : BeatState) :
    ((beatDetect d now b).2 = 1 ∧ (beatDetect d now b).1.lastBeatMillis = now ∧
        u32 (now + 4294967296 - b.lastBeatMillis) > beatDelay) ∨
      ((beatDetect d now b).2 = 0 ∧ (beatDetect d now b).1.lastBeatMillis = b.lastBeatMillis) := by
  unfold beatDetect
  simp only
  split_ifs with h1
  all_goals first
    | exact Or.inr ⟨rfl, rfl⟩
    | exact Or.inl ⟨rfl, rfl, h1.2.2⟩

/-- Every beat is more than `beatDelay` after the stamp the run started with. -/
theorem beatRun_after_stamp (inputs : List BeatInput) :
    ∀ (b : BeatState), ClockOK inputs → (∀ x ∈ inputs, b.lastBeatMillis ≤ x.currentMillis) →
      ∀ j : Nat, (beatRun b inputs)[j]? = some 1 →
        ∃ t, inputs[j]? = some t ∧ b.lastBeatMillis + beatDelay < t.currentMillis := by
  induction inputs with
  | nil => intro b _ _ j hj; simp [beatRun] at hj
  | cons x rest ih =>
    intro b hc hb j hj
    obtain ⟨hx32, hxrest, hcrest⟩ := hc
    have hbx : b.lastBeatMillis ≤ x.currentMillis := hb x (List.mem_cons_self _ _)
    have hst := beatDetect_stamp x.spectrumDecay x.currentMillis b
    cases j with
    | zero =>
      simp only [beatRun, List.getElem?_cons_zero, Option.some.injEq] at hj
      rcases hst with ⟨_, _, h3⟩ | ⟨h0, _⟩
      · refine ⟨x, List.getElem?_cons_zero, ?_⟩
        simp only [u32, beatDelay] at h3 ⊢
        omega
      · rw [h0] at hj
        exact absurd hj (by decide)
    | succ j =>
      simp only [beatRun, List.getElem?_cons_succ] at hj
      have hle : b.lastBeatMillis ≤
          (beatDetect x.spectrumDecay x.currentMillis b).1.lastBeatMillis := by
        rcases hst with ⟨_, h2, _⟩ | ⟨_, h2⟩ <;> rw [h2]
        exact hbx
      have hb1 : ∀ y ∈ rest,
          (beatDetect x.spectrumDecay x.currentMillis b).1.lastBeatMillis ≤ y.currentMillis := by
        intro y hy
        rcases hst with ⟨_, h2, _⟩ | ⟨_, h2⟩ <;> rw [h2]
        · exact hxrest y hy
        · exact hb y (List.mem_cons_of_mem _ hy)
      obtain ⟨t, ht, hlt⟩ := ih _ hcrest hb1 j hj
      exact ⟨t, by simpa using ht, by omega⟩

theorem beatRun_spaced (inputs : List BeatInput) :
    ∀ (b : BeatState), ClockOK inputs → (∀ x ∈ inputs, b.lastBeatMillis ≤ x.currentMillis) →
      ∀ i j : Nat, i < j → (beatRun b inputs)[i]? = some 1 → (beatRun b inputs)[j]? = some 1 →
        ∃ s t, inputs[i]? = some s ∧ inputs[j]? = some t ∧
          s.currentMillis + beatDelay < t.currentMillis := by
  induction inputs with
  | nil => intro b _ _ i j _ hi; simp [beatRun] at hi
  | cons x rest ih =>
    intro b hc hb i j hij hi hj
    obtain ⟨hx32, hxrest, hcrest⟩ := hc
    have hst := beatDetect_stamp x.spectrumDecay x.currentMillis b
    have hb1 : ∀ y ∈ rest,
        (beatDetect x.spectrumDecay x.currentMillis b).1.lastBeatMillis ≤ y.currentMillis := by
      intro y hy
      rcases hst with ⟨_, h2, _⟩ | ⟨_, h2⟩ <;> rw [h2]
      · exact hxrest y hy
      · exact hb y (List.mem_cons_of_mem _ hy)
    cases j with
    | zero => omega
    | succ j =>
      simp only [beatRun, List.getElem?_cons_succ] at hj
      cases i with
      | zero =>
        simp only [beatRun, List.getElem?_cons_zero, Option.some.injEq] at hi
        rcases hst with ⟨_, h2, _⟩ | ⟨h0, _⟩
        · obtain ⟨t, ht, hlt⟩ := beatRun_after_stamp rest _ hcrest hb1 j hj
          rw [h2] at hlt
          exact ⟨x, t, List.getElem?_cons_zero, by simpa using ht, hlt⟩
        · rw [h0] at hi
          exact absurd hi (by decide)
      | succ i =>
        simp only [beatRun, List.getElem?_cons_succ] at hi
        obtain ⟨s, t, hs, ht, hlt⟩ := ih _ hcrest hb1 i j (by omega) hi hj
        exact ⟨s, t, by simpa using hs, by simpa using ht, hlt⟩

/-- C7: in a run of `beatDetect` from the initial state with a non-decreasing
32-bit clock, any two calls that return 1 have clock values more than
`beatDelay` = 50 apart. -/
theorem beat_events_spaced (inputs : List BeatInput) (hc : ClockOK inputs) (i j : Nat)
    (hij : i < j) (hi : (beatRun beatInit inputs)[i]? = some 1)
    (hj : (beatRun beatInit inputs)[j]? = some 1) :
    ∃ s t, inputs[i]? = some s ∧ inputs[j]? = some t ∧ s.currentMillis + 50 < t.currentMillis :=
  beatRun_spaced inputs beatInit hc (fun _ _ => Nat.zero_le _) i j hij hi hj

theorem beat_events_spaced_witness :
    ∃ s t, beatSample[0]? = some s ∧ beatSample[2]? = some t ∧
      s.currentMillis + 50 < t.currentMillis :=
  beat_events_spaced beatSample (by simp [ClockOK, beatSample]) 0 2 (by decide) (by decide!)
    (by decide!)

/-! ## Theorems: effects -/

/-- A call with `effectInit` already set skips the setup block. -/
theorem call_initialised (e : Effect) (env : EffectEnv) (t : EffectState)
    (h : t.effectInit = true) :
    (e.call env t).effectInit = true ∧ (e.call env t).setupRuns = t.setupRuns := by
  cases e <;>
    simp only [Effect.call, threeSine, plasma, rider, glitter, colorFill, threeDee, sideRain,
      confetti, slantBars, scrollTextZero, scrollTextOne, scrollTextTwo, scrollText,
      drawAnalyzer, drawVU, RGBpulse, heartPulse, h] <;>
    (try simp only [Bool.true_eq_false, if_false, ↓reduceIte]) <;>
    (try split_ifs) <;> simp_all

/-- The first call after activation runs the setup block once. -/
theorem call_fresh (e : Effect) (env : EffectEnv) (s : EffectState)
    (h : s.effectInit = false) :
    (e.call env s).effectInit = true ∧ (e.call env s).setupRuns = s.setupRuns + 1 := by
  cases e <;>
    simp only [Effect.call, threeSine, plasma, rider, glitter, colorFill, threeDee, sideRain,
      confetti, slantBars, scrollTextZero, scrollTextOne, scrollTextTwo, scrollText,
      drawAnalyzer, drawVU, RGBpulse, heartPulse, h] <;>
    (try simp only [if_true, ↓reduceIte]) <;>
    (try split_ifs) <;> simp_all

theorem rider_first (s : EffectState) (h : s.effectInit = false) : (rider s).riderPos = 1 := by
  simp [rider, h, u8]

theorem rider_next (t : EffectState) (h : t.effectInit = true) :
    (rider t).riderPos = u8 (t.riderPos + 1) := by
  simp [rider, h]

theorem colorFill_first (env : EffectEnv) (s : EffectState) (h : s.effectInit = false) :
    (colorFill env s).currentRow = 1 ∧ (colorFill env s).currentColor = 0 ∧
      (colorFill env s).currentDirection = 0 := by
  simp [colorFill, h, u8, kMatrixHeight, kMatrixWidth]

/-- While a fill is in progress a call only advances `currentRow`. -/
theorem colorFill_next (env : EffectEnv) (t : EffectState) (h : t.effectInit = true)
    (hd : t.currentDirection = 0) (hr : t.currentRow + 1 < 15) :
    (colorFill env t).currentRow = t.currentRow + 1 ∧
      (colorFill env t).currentColor = t.currentColor ∧
      (colorFill env t).currentDirection = 0 := by
  have hu : u8 (t.currentRow + 1) = t.currentRow + 1 := Nat.mod_eq_of_lt (by omega)
  have hn : ¬ (15 ≤ t.currentRow + 1) := by omega
  simp [colorFill, h, hd, hu, hn, kMatrixHeight, kMatrixWidth]

theorem runEffect_take_succ (e : Effect) (s : EffectState) (envs : List EffectEnv) (k : Nat)
    (hk : k < envs.length) :
    runEffect e s (envs.take (k + 1)) =
      e.call (envs.get ⟨k, hk⟩) (runEffect e s (envs.take k)) := by
  simp only [runEffect, List.take_succ, List.foldl_append]
  rw [List.getElem?_eq_getElem hk]
  rfl

/-- C10: for every effect of `effects.h`, starting from `effectInit = false`,
after each of the calls 1..N `effectInit` is true and the setup block has run
exactly once (on the first call); accordingly after `k` calls of `rider`
`riderPos = k mod 256`, and during the first fill of `colorFill` (`k < 15`)
`currentRow = k` with `currentColor` and `currentDirection` still at their
reset value 0. -/
theorem effect_setup_once (e : Effect) (s : EffectState) (envs : List EffectEnv)
    (h0 : s.effectInit = false) (k : Nat) (hk1 : 1 ≤ k) (hk : k ≤ envs.length) :
    (runEffect e s (envs.take k)).effectInit = true ∧
      (runEffect e s (envs.take k)).setupRuns = s.setupRuns + 1 ∧
      (e = Effect.rider → (runEffect e s (envs.take k)).riderPos = k % 256) ∧
      (e = Effect.colorFill → k < 15 →
        (runEffect e s (envs.take k)).currentRow = k ∧
        (runEffect e s (envs.take k)).currentColor = 0 ∧
        (runEffect e s (envs.take k)).currentDirection = 0) := by
  induction k with
  | zero => omega
  | succ k ih =>
    have hlt : k < envs.length := by omega
    rw [runEffect_take_succ e s envs k hlt]
    by_cases hk0 : k = 0
    · subst hk0
      have hs : runEffect e s (envs.take 0) = s := rfl
      rw [hs]
      obtain ⟨c1, c2⟩ := call_fresh e (envs.get ⟨0, hlt⟩) s h0
      refine ⟨c1, c2, ?_, ?_⟩
      · intro he; subst he
        exact rider_first s h0
      · intro he _; subst he
        exact colorFill_first _ s h0
    · obtain ⟨i1, i2, i3, i4⟩ := ih (by omega) (by omega)
      obtain ⟨c1, c2⟩ := call_initialised e (envs.get ⟨k, hlt⟩) _ i1
      refine ⟨c1, by rw [c2, i2], ?_, ?_⟩
      · intro he; subst he
        show (rider _).riderPos = _
        rw [rider_next _ i1, i3 rfl]
        simp only [u8]
        omega
      · intro he hk15; subst he
        obtain ⟨r1, r2, r3⟩ := i4 rfl (by omega)
        obtain ⟨n1, n2, n3⟩ := colorFill_next (envs.get ⟨k, hlt⟩) _ i1 r3 (by omega)
        exact ⟨n1.trans (by rw [r1]), n2.trans r2, n3⟩

theorem effect_setup_once_witness :
    (runEffect Effect.colorFill staleState ([sampleEnv, sampleEnv, sampleEnv].take 3)).effectInit
        = true ∧
      (runEffect Effect.colorFill staleState ([sampleEnv, sampleEnv, sampleEnv].take 3)).setupRuns
        = staleState.setupRuns + 1 ∧
      (Effect.colorFill = Effect.rider →
        (runEffect Effect.colorFill staleState
          ([sampleEnv, sampleEnv, sampleEnv].take 3)).riderPos = 3 % 256) ∧
      (Effect.colorFill = Effect.colorFill → 3 < 15 →
        (runEffect Effect.colorFill staleState
          ([sampleEnv, sampleEnv, sampleEnv].take 3)).currentRow = 3 ∧
        (runEffect Effect.colorFill staleState
          ([sampleEnv, sampleEnv, sampleEnv].take 3)).currentColor = 0 ∧
        (runEffect Effect.colorFill staleState
          ([sampleEnv, sampleEnv, sampleEnv].take 3)).currentDirection = 0) :=
  effect_setup_once Effect.colorFill staleState [sampleEnv, sampleEnv, sampleEnv] rfl 3
    (by decide) (by decide)

/-! ## Theorems: scrollText -/

/-- The buffer and pointer one call of `scrollText` leaves behind when
`effectInit` is already set. -/
theorem scrollText_buffer (message : Nat) (env : EffectEnv) (s : EffectState)
    (h : s.effectInit = true) (hp : s.bitBufferPointer ≤ 15) :
    (scrollText message env s).bitBuffer =
        Function.update s.bitBuffer (bitIndex (s.bitBufferPointer + kMatrixWidth - 1))
          (if hc : s.currentCharColumn < 5 then s.charBuffer ⟨s.currentCharColumn, hc⟩ else 0) ∧
      (scrollText message env s).bitBufferPointer =
        (if s.bitBufferPointer + 1 > 15 then 0 else s.bitBufferPointer + 1) ∧
      (scrollText message env s).effectInit = true := by
  have hu : u8 (s.bitBufferPointer + 1) = s.bitBufferPointer + 1 := Nat.mod_eq_of_lt (by omega)
  have hne : ¬ (s.effectInit = false) := by rw [h]; decide
  unfold scrollText
  simp only [if_neg hne]
  refine ⟨?_, ?_, ?_⟩ <;> split_ifs <;> first | rfl | assumption | simp_all

theorem bitIndex_ne (a b : Nat) (h : a % 15 ≠ b % 15) : bitIndex a ≠ bitIndex b := by
  intro he
  have := congrArg Fin.val he
  simp only [bitIndex, kMatrixWidth] at this
  exact h this

theorem bitIndex_eq (a b : Nat) (h : a % 15 = b % 15) : bitIndex a = bitIndex b := by
  apply Fin.ext
  simp only [bitIndex, kMatrixWidth]
  exact h

/-- While `bitBufferPointer` is at most 14 the text moves left by one column:
what a call shows at column `x` (1..14) the next call shows at `x - 1`. -/
theorem scrollText_shifts (message : Nat) (env env2 : EffectEnv) (s : EffectState)
    (h : s.effectInit = true) (hp : s.bitBufferPointer ≤ 14) (x : Nat) (hx1 : 1 ≤ x)
    (hx : x ≤ 14) :
    scrollTextColumn message env2 (scrollText message env s) (x - 1) =
      scrollTextColumn message env s x := by
  obtain ⟨b1, p1, i1⟩ := scrollText_buffer message env s h (by omega)
  obtain ⟨b2, _, _⟩ := scrollText_buffer message env2 (scrollText message env s) i1
    (by rw [p1]; split_ifs <;> omega)
  have hp1 : (scrollText message env s).bitBufferPointer = s.bitBufferPointer + 1 := by
    rw [p1, if_neg (by omega)]
  unfold scrollTextColumn
  rw [b2, hp1]
  rw [Function.update_noteq (bitIndex_ne _ _ (by simp only [kMatrixWidth]; omega))]
  exact congrArg _ (bitIndex_eq _ _ (by omega))

/-- When `bitBufferPointer` is 15 the text does not move: the next call
shows at columns 0..13 what this call showed there, and stores its new column
over the one this call stored. -/
theorem scrollText_repeats (message : Nat) (env env2 : EffectEnv) (s : EffectState)
    (h : s.effectInit = true) (hp : s.bitBufferPointer = 15) (x : Nat) (hx : x ≤ 13) :
    scrollTextColumn message env2 (scrollText message env s) x =
      scrollTextColumn message env s x := by
  obtain ⟨b1, p1, i1⟩ := scrollText_buffer message env s h (by omega)
  obtain ⟨b2, _, _⟩ := scrollText_buffer message env2 (scrollText message env s) i1
    (by rw [p1]; split_ifs <;> omega)
  have hp1 : (scrollText message env s).bitBufferPointer = 0 := by
    rw [p1, if_pos (by omega)]
  unfold scrollTextColumn
  rw [b2, hp1, hp]
  rw [Function.update_noteq (bitIndex_ne _ _ (by simp only [kMatrixWidth]; omega))]
  exact congrArg _ (bitIndex_eq _ _ (by omega))

/-- C13 fails at `bitBufferPointer = 15`: the call shows byte 18 (the column
it has just stored) at display column 14 and byte 6 at column 5, but the next
call shows byte 14 at column 13 and byte 5 at column 4, the same bytes this
call showed there; pixel (14, 2) is dark and pixel (13, 2) of the next frame
is lit.  The next call runs with pointer 0 and stores its column at index 14
again. -/
theorem scrollText_stutter :
    scrollState15.effectInit = true ∧ scrollState15.bitBufferPointer = 15 ∧
      (scrollText 0 sampleEnv scrollState15).bitBufferPointer = 0 ∧
      scrollTextColumn 0 sampleEnv scrollState15 14 = 18 ∧
      scrollTextColumn 0 sampleEnv (scrollText 0 sampleEnv scrollState15) 13 = 14 ∧
      scrollTextColumn 0 sampleEnv scrollState15 13 = 14 ∧
      scrollTextColumn 0 sampleEnv scrollState15 5 = 6 ∧
      scrollTextColumn 0 sampleEnv (scrollText 0 sampleEnv scrollState15) 4 = 5 ∧
      scrollTextLit 0 sampleEnv scrollState15 14 2 = false ∧
      scrollTextLit 0 sampleEnv (scrollText 0 sampleEnv scrollState15) 13 2 = true ∧
      ¬ (∀ x, 1 ≤ x → x ≤ 14 →
          scrollTextColumn 0 sampleEnv (scrollText 0 sampleEnv scrollState15) (x - 1) =
            scrollTextColumn 0 sampleEnv scrollState15 x) := by
  refine ⟨rfl, rfl, by decide, by decide, by decide, by decide, by decide, by decide,
    by decide, by decide, ?_⟩
  intro hall
  exact absurd (hall 14 (by decide) (by decide)) (by decide)

/-! ## Theorems: floating-point rounding -/

theorem pow2_eq (k : Int) : pow2 k = (2 : ℚ) ^ k := by
  unfold pow2
  split_ifs with h
  · obtain ⟨n, rfl⟩ := Int.eq_ofNat_of_zero_le h
    simp
  · obtain ⟨n, hn⟩ := Int.exists_eq_neg_ofNat (le_of_lt (not_le.mp h))
    subst hn
    simp

theorem pow2_pos (k : Int) : 0 < pow2 k := by
  rw [pow2_eq]
  exact zpow_pos (by norm_num) k

theorem pow2_le (a b : Int) (h : a ≤ b) : pow2 a ≤ pow2 b := by
  rw [pow2_eq, pow2_eq]
  exact zpow_le_zpow_right₀ (by norm_num) h

theorem pow2_add (a b : Int) : pow2 (a + b) = pow2 a * pow2 b := by
  rw [pow2_eq, pow2_eq, pow2_eq]
  exact zpow_add₀ (by norm_num) a b

theorem log2Fuel_spec : ∀ fuel n : Nat, 0 < n → n ≤ fuel →
    2 ^ log2Fuel fuel n ≤ n ∧ n < 2 ^ (log2Fuel fuel n + 1) := by
  intro fuel
  induction fuel with
  | zero => intro n h0 h1; omega
  | succ fuel ih =>
    intro n h0 h1
    unfold log2Fuel
    split_ifs with h
    · have : n = 1 := by omega
      subst this
      simp
    · obtain ⟨i1, i2⟩ := ih (n / 2) (by omega) (by omega)
      rw [pow_succ] at i2 ⊢
      rw [pow_succ]
      constructor <;> omega

theorem ilog2_spec (n : Nat) (h : 0 < n) : 2 ^ ilog2 n ≤ n ∧ n < 2 ^ (ilog2 n + 1) :=
  log2Fuel_spec n n h (le_refl n)

/-- The binade brackets a positive rational between two powers of two. -/
theorem binade_spec (x : ℚ) (hx : 0 < x) :
    pow2 (binade x) ≤ x ∧ x < pow2 (binade x + 1) := by
  have hnum : 0 < x.num := Rat.num_pos.mpr hx
  obtain ⟨p, hp⟩ := Int.eq_ofNat_of_zero_le (le_of_lt hnum)
  have hp0 : 0 < p := by
    rw [hp] at hnum
    exact_mod_cast hnum
  have hq0 : 0 < x.den := x.den_pos
  obtain ⟨a1, a2⟩ := ilog2_spec p hp0
  obtain ⟨b1, b2⟩ := ilog2_spec x.den hq0
  have hxe : x = (p : ℚ) / (x.den : ℚ) := by
    have h1 : (x.num : ℚ) / (x.den : ℚ) = x := Rat.num_div_den x
    rw [hp, Int.cast_natCast] at h1
    exact h1.symm
  have hnat : x.num.natAbs = p := by rw [hp]; rfl
  have habs : |x| = x := abs_of_pos hx
  have hpq : (0 : ℚ) < (p : ℚ) := by exact_mod_cast hp0
  have hqq : (0 : ℚ) < (x.den : ℚ) := by exact_mod_cast hq0
  have A1 : (2 : ℚ) ^ ilog2 p ≤ p := by exact_mod_cast a1
  have A2 : (p : ℚ) < 2 ^ (ilog2 p + 1) := by exact_mod_cast a2
  have B1 : (2 : ℚ) ^ ilog2 x.den ≤ x.den := by exact_mod_cast b1
  have B2 : (x.den : ℚ) < 2 ^ (ilog2 x.den + 1) := by exact_mod_cast b2
  have hA : (0 : ℚ) < 2 ^ ilog2 p := by positivity
  have hB : (0 : ℚ) < 2 ^ ilog2 x.den := by positivity
  -- the two candidate exponents
  have e0 : pow2 ((ilog2 p : Int) - (ilog2 x.den : Int)) = (2 : ℚ) ^ ilog2 p / 2 ^ ilog2 x.den := by
    rw [pow2_eq, zpow_sub₀ (by norm_num), zpow_natCast, zpow_natCast]
  have e1 : pow2 ((ilog2 p : Int) - (ilog2 x.den : Int) + 1) =
      (2 : ℚ) ^ (ilog2 p + 1) / 2 ^ ilog2 x.den := by
    rw [pow2_add, e0, pow2_eq, zpow_one, pow_succ]
    ring
  have em : pow2 ((ilog2 p : Int) - (ilog2 x.den : Int) - 1) =
      (2 : ℚ) ^ ilog2 p / 2 ^ (ilog2 x.den + 1) := by
    have : (ilog2 p : Int) - (ilog2 x.den : Int) - 1 =
        ((ilog2 p : Int) - (ilog2 x.den : Int)) + (-1) := by ring
    rw [this, pow2_add, e0, pow2_eq, pow_succ]
    norm_num
    field_simp
  have up : x < (2 : ℚ) ^ (ilog2 p + 1) / 2 ^ ilog2 x.den := by
    refine lt_of_eq_of_lt hxe ?_
    rw [div_lt_div_iff₀ hqq hB]
    calc (p : ℚ) * 2 ^ ilog2 x.den ≤ (p : ℚ) * x.den := by
          exact mul_le_mul_of_nonneg_left B1 (le_of_lt hpq)
      _ < 2 ^ (ilog2 p + 1) * x.den := by
          exact mul_lt_mul_of_pos_right A2 hqq
  have lo : (2 : ℚ) ^ ilog2 p / 2 ^ (ilog2 x.den + 1) ≤ x := by
    refine le_of_le_of_eq ?_ hxe.symm
    rw [div_le_div_iff₀ (by positivity) hqq]
    calc (2 : ℚ) ^ ilog2 p * x.den ≤ (p : ℚ) * x.den := by
          exact mul_le_mul_of_nonneg_right A1 (le_of_lt hqq)
      _ ≤ (p : ℚ) * 2 ^ (ilog2 x.den + 1) := by
          exact mul_le_mul_of_nonneg_left (le_of_lt B2) (le_of_lt hpq)
  unfold binade
  simp only [hnat, habs]
  split_ifs with h
  · exact ⟨h, by rw [e1]; exact up⟩
  · refine ⟨by rw [em]; exact lo, ?_⟩
    have : (ilog2 p : Int) - (ilog2 x.den : Int) - 1 + 1 =
        (ilog2 p : Int) - (ilog2 x.den : Int) := by ring
    rw [this]
    exact not_le.mp h

/-- A larger positive rational has a larger or equal binade. -/
theorem binade_mono (x y : ℚ) (hx : 0 < x) (hxy : x ≤ y) : binade x ≤ binade y := by
  obtain ⟨x1, _⟩ := binade_spec x hx
  obtain ⟨_, y2⟩ := binade_spec y (lt_of_lt_of_le hx hxy)
  have h : pow2 (binade x) < pow2 (binade y + 1) := lt_of_le_of_lt (le_trans x1 hxy) y2
  rw [pow2_eq, pow2_eq, zpow_lt_zpow_iff_right₀ (by norm_num)] at h
  omega

theorem roundEven_ge (q : ℚ) : ⌊q⌋ ≤ roundEven q := by
  unfold roundEven
  simp only
  split_ifs <;> omega

theorem roundEven_le (q : ℚ) : roundEven q ≤ ⌊q⌋ + 1 := by
  unfold roundEven
  simp only
  split_ifs <;> omega

theorem roundEven_intCast (n : Int) : roundEven (n : ℚ) = n := by
  unfold roundEven
  simp

theorem roundEven_mono (q q2 : ℚ) (h : q ≤ q2) : roundEven q ≤ roundEven q2 := by
  have hf : ⌊q⌋ ≤ ⌊q2⌋ := Int.floor_mono h
  rcases lt_or_eq_of_le hf with hlt | heq
  · exact le_trans (roundEven_le q) (le_trans (by omega) (roundEven_ge q2))
  · have hr : q - (⌊q⌋ : ℚ) ≤ q2 - (⌊q2⌋ : ℚ) := by rw [heq]; linarith
    unfold roundEven
    simp only
    rw [← heq]
    rw [← heq] at hr
    split_ifs <;> first | omega | linarith

theorem le_roundEven (n : Int) (q : ℚ) (h : (n : ℚ) ≤ q) : n ≤ roundEven q := by
  have := roundEven_mono _ _ h
  rwa [roundEven_intCast] at this

theorem roundEven_le_of_le (n : Int) (q : ℚ) (h : q ≤ (n : ℚ)) : roundEven q ≤ n := by
  have := roundEven_mono _ _ h
  rwa [roundEven_intCast] at this

theorem pow2_natCast (n : Nat) : pow2 (n : Int) = (((2 : Int) ^ n : Int) : ℚ) := by
  rw [pow2_eq, zpow_natCast]
  push_cast
  rfl

theorem roundFloat_zero (p : Nat) (emin : Int) : roundFloat p emin 0 = 0 := by
  simp [roundFloat]

/-- The value of `roundFloat` at a non-zero argument. -/
theorem roundFloat_pos_eq (p : Nat) (emin : Int) (x : ℚ) (hx : 0 < x) :
    roundFloat p emin x =
      (roundEven (x / pow2 (max (binade x) emin - ((p : Int) - 1))) : ℚ) *
        pow2 (max (binade x) emin - ((p : Int) - 1)) := by
  unfold roundFloat
  rw [if_neg (ne_of_gt hx)]

theorem roundFloat_nonneg (p : Nat) (emin : Int) (x : ℚ) (hx : 0 ≤ x) :
    0 ≤ roundFloat p emin x := by
  rcases eq_or_lt_of_le hx with h0 | hpos
  · rw [← h0, roundFloat_zero]
  · rw [roundFloat_pos_eq p emin x hpos]
    have hu := pow2_pos (max (binade x) emin - ((p : Int) - 1))
    have hq : (0 : ℚ) ≤ x / pow2 (max (binade x) emin - ((p : Int) - 1)) :=
      div_nonneg hx (le_of_lt hu)
    have : (0 : Int) ≤ roundEven (x / pow2 (max (binade x) emin - ((p : Int) - 1))) :=
      le_roundEven 0 _ (by exact_mod_cast hq)
    exact mul_nonneg (by exact_mod_cast this) (le_of_lt hu)

/-- A positive number rounds to at most the top of its binade. -/
theorem roundFloat_le_top (p : Nat) (emin : Int) (x : ℚ) (hx : 0 < x) :
    roundFloat p emin x ≤ pow2 (max (binade x) emin + 1) := by
  rw [roundFloat_pos_eq p emin x hx]
  have hu := pow2_pos (max (binade x) emin - ((p : Int) - 1))
  have hsplit : pow2 (max (binade x) emin + 1) =
      pow2 (p : Int) * pow2 (max (binade x) emin - ((p : Int) - 1)) := by
    rw [← pow2_add]
    congr 1
    ring
  have hxlt : x ≤ pow2 (max (binade x) emin + 1) :=
    le_trans (le_of_lt (binade_spec x hx).2) (pow2_le _ _ (by omega))
  have hq : x / pow2 (max (binade x) emin - ((p : Int) - 1)) ≤ (((2 : Int) ^ p : Int) : ℚ) := by
    rw [div_le_iff₀ hu, ← pow2_natCast, ← hsplit]
    exact hxlt
  have := roundEven_le_of_le _ _ hq
  rw [hsplit, pow2_natCast]
  exact mul_le_mul_of_nonneg_right (by exact_mod_cast this) (le_of_lt hu)

/-- A normal positive number rounds to at least the bottom of its binade. -/
theorem roundFloat_ge_bottom (p : Nat) (hp : 1 ≤ p) (emin : Int) (x : ℚ) (hx : 0 < x)
    (hn : emin ≤ binade x) : pow2 (binade x) ≤ roundFloat p emin x := by
  rw [roundFloat_pos_eq p emin x hx, max_eq_left hn]
  have hu := pow2_pos (binade x - ((p : Int) - 1))
  obtain ⟨m, hm⟩ : ∃ m : Nat, p = m + 1 := ⟨p - 1, by omega⟩
  have hsplit : pow2 (binade x) = pow2 (m : Int) * pow2 (binade x - ((p : Int) - 1)) := by
    rw [← pow2_add]
    congr 1
    rw [hm]
    push_cast
    ring
  have hq : (((2 : Int) ^ m : Int) : ℚ) ≤ x / pow2 (binade x - ((p : Int) - 1)) := by
    rw [le_div_iff₀ hu, ← pow2_natCast, ← hsplit]
    exact (binade_spec x hx).1
  have := le_roundEven _ _ hq
  rw [hsplit, pow2_natCast]
  exact mul_le_mul_of_nonneg_right (by exact_mod_cast this) (le_of_lt hu)

/-- Rounding preserves the order of non-negative numbers. -/
theorem roundFloat_mono (p : Nat) (hp : 1 ≤ p) (emin : Int) (x y : ℚ) (hx : 0 ≤ x)
    (hxy : x ≤ y) : roundFloat p emin x ≤ roundFloat p emin y := by
  rcases eq_or_lt_of_le hx with h0 | hpos
  · rw [← h0, roundFloat_zero]
    exact roundFloat_nonneg p emin y (le_trans hx hxy)
  · have hy : 0 < y := lt_of_lt_of_le hpos hxy
    have hb := binade_mono x y hpos hxy
    rcases lt_or_eq_of_le (max_le_max hb (le_refl emin)) with hlt | heq
    · have hny : emin ≤ binade y := by
        by_contra hcon
        rw [max_eq_right (le_of_lt (not_le.mp hcon))] at hlt
        exact absurd hlt (not_lt.mpr (le_max_right _ _))
      have hey : max (binade y) emin = binade y := max_eq_left hny
      calc roundFloat p emin x ≤ pow2 (max (binade x) emin + 1) := roundFloat_le_top p emin x hpos
        _ ≤ pow2 (binade y) := pow2_le _ _ (by omega)
        _ ≤ roundFloat p emin y := roundFloat_ge_bottom p hp emin y hy hny
    · rw [roundFloat_pos_eq p emin x hpos, roundFloat_pos_eq p emin y hy, heq]
      have hu := pow2_pos (max (binade y) emin - ((p : Int) - 1))
      have hq : x / pow2 (max (binade y) emin - ((p : Int) - 1)) ≤
          y / pow2 (max (binade y) emin - ((p : Int) - 1)) :=
        div_le_div_of_nonneg_right hxy (le_of_lt hu)
      have := roundEven_mono _ _ hq
      exact mul_le_mul_of_nonneg_right (by exact_mod_cast this) (le_of_lt hu)

/-- Every rounded value is an integer multiple of the least positive float. -/
theorem roundFloat_grid (p : Nat) (emin : Int) (x : ℚ) :
    ∃ k : Int, roundFloat p emin x = (k : ℚ) * pow2 (emin - ((p : Int) - 1)) := by
  unfold roundFloat
  split_ifs with h
  · exact ⟨0, by simp⟩
  · simp only
    obtain ⟨m, hm⟩ := Int.eq_ofNat_of_zero_le
      (show 0 ≤ max (binade x) emin - emin by have := le_max_right (binade x) emin; omega)
    have hsplit : pow2 (max (binade x) emin - ((p : Int) - 1)) =
        pow2 (m : Int) * pow2 (emin - ((p : Int) - 1)) := by
      rw [← pow2_add, ← hm]
      congr 1
      ring
    refine ⟨roundEven (x / pow2 (max (binade x) emin - ((p : Int) - 1))) * (2 : Int) ^ m, ?_⟩
    rw [hsplit, pow2_natCast]
    push_cast
    ring

/-- The fields the rounded loop body leaves alone, and the running sum. -/
theorem analogLoopFl_frame (R : Rounding) (raw : Fin 7 → Nat) (hraw : IsADC raw)
    (l : List (Fin 7)) :
    ∀ acc : AudioState × Int, 0 ≤ acc.2 → acc.2 + 1069 * (l.length : Int) < 32768 →
      (l.foldl (analogBandFl R raw) acc).1.audioAvg = acc.1.audioAvg ∧
      (l.foldl (analogBandFl R raw) acc).1.gainAGC = acc.1.gainAGC ∧
      (l.foldl (analogBandFl R raw) acc).2 =
        acc.2 + ((l.map fun i => calibrated i (raw i)).sum : Nat) := by
  induction l with
  | nil => intro acc _ _; simp
  | cons i rest ih =>
    intro acc h0 h1
    have hc := calibrated_le i (raw i) (hraw i)
    simp only [List.length_cons, Nat.cast_add, Nat.cast_one] at h1
    have hs2 : (analogBandFl R raw acc i).2 = acc.2 + (calibrated i (raw i) : Int) := by
      show i16 (Int.toNat ((acc.2 + (calibrated i (raw i) : Int)) % 65536)) = _
      rw [i16_small _ (by omega) (by omega)]
    obtain ⟨ia, ig, is⟩ := ih (analogBandFl R raw acc i) (by omega) (by omega)
    rw [List.foldl_cons, ia, ig, is, hs2]
    refine ⟨rfl, rfl, ?_⟩
    simp only [List.map_cons, List.sum_cons, Nat.cast_add]
    ring

/-- The rounded loop never writes `gainAGC`. -/
theorem analogLoopFl_gain (R : Rounding) (raw : Fin 7 → Nat) (l : List (Fin 7)) :
    ∀ acc : AudioState × Int,
      (l.foldl (analogBandFl R raw) acc).1.gainAGC = acc.1.gainAGC := by
  induction l with
  | nil => intro acc; rfl
  | cons i rest ih =>
    intro acc
    rw [List.foldl_cons, ih (analogBandFl R raw acc i)]
    rfl

/-- A band that the rounded loop does not visit keeps its three values. -/
theorem analogLoopFl_skip (R : Rounding) (raw : Fin 7 → Nat) (j : Fin 7) (l : List (Fin 7)) :
    ∀ acc : AudioState × Int, j ∉ l →
      (l.foldl (analogBandFl R raw) acc).1.spectrumValue j = acc.1.spectrumValue j ∧
      (l.foldl (analogBandFl R raw) acc).1.spectrumDecay j = acc.1.spectrumDecay j ∧
      (l.foldl (analogBandFl R raw) acc).1.spectrumPeaks j = acc.1.spectrumPeaks j := by
  induction l with
  | nil => intro acc _; exact ⟨rfl, rfl, rfl⟩
  | cons i rest ih =>
    intro acc hj
    rw [List.mem_cons, not_or] at hj
    obtain ⟨iv, id, ip⟩ := ih (analogBandFl R raw acc i) hj.2
    rw [List.foldl_cons, iv, id, ip]
    simp only [analogBandFl]
    exact ⟨Function.update_noteq hj.1 _ _, Function.update_noteq hj.1 _ _,
      Function.update_noteq hj.1 _ _⟩

/-- The three values of band `j` after the rounded loop visited it once: all
are computed from the gain held when the loop started. -/
theorem analogLoopFl_band (R : Rounding) (raw : Fin 7 → Nat) (j : Fin 7) (l : List (Fin 7)) :
    ∀ acc : AudioState × Int, l.Nodup → j ∈ l →
      (l.foldl (analogBandFl R raw) acc).1.spectrumValue j =
          gained R (calibrated j (raw j)) acc.1.gainAGC ∧
      (l.foldl (analogBandFl R raw) acc).1.spectrumDecay j =
          decayStep R (acc.1.spectrumDecay j) (gained R (calibrated j (raw j)) acc.1.gainAGC) ∧
      (l.foldl (analogBandFl R raw) acc).1.spectrumPeaks j =
          peakStep R (acc.1.spectrumPeaks j)
            (decayStep R (acc.1.spectrumDecay j)
              (gained R (calibrated j (raw j)) acc.1.gainAGC)) := by
  induction l with
  | nil => intro acc _ hj; simp at hj
  | cons i rest ih =>
    intro acc hnd hj
    rw [List.nodup_cons] at hnd
    rw [List.foldl_cons]
    by_cases hij : j = i
    · subst hij
      obtain ⟨sv, sd, sp⟩ := analogLoopFl_skip R raw j rest (analogBandFl R raw acc j) hnd.1
      rw [sv, sd, sp]
      simp [analogBandFl]
    · have hjr : j ∈ rest := by
        rcases List.mem_cons.mp hj with h | h
        · exact absurd h hij
        · exact h
      obtain ⟨iv, id, ip⟩ := ih (analogBandFl R raw acc i) hnd.2 hjr
      rw [iv, id, ip]
      simp [analogBandFl, Function.update_noteq hij]

/-- What one call of `doAnalogsFl` does to each global, for ADC readings. -/
theorem doAnalogsFl_eq (R : Rounding) (raw : Fin 7 → Nat) (hraw : IsADC raw) (s : AudioState) :
    (doAnalogsFl R raw s).audioAvg =
        avgStep R ((∑ i, calibrated i (raw i) : Nat) : Int) s.audioAvg ∧
    (doAnalogsFl R raw s).gainAGC = gainOf R (doAnalogsFl R raw s).audioAvg ∧
    ∀ j, (doAnalogsFl R raw s).spectrumValue j =
          gained R (calibrated j (raw j)) s.gainAGC ∧
        (doAnalogsFl R raw s).spectrumDecay j =
          decayStep R (s.spectrumDecay j) (gained R (calibrated j (raw j)) s.gainAGC) ∧
        (doAnalogsFl R raw s).spectrumPeaks j =
          peakStep R (s.spectrumPeaks j) ((doAnalogsFl R raw s).spectrumDecay j) := by
  obtain ⟨fa, _, fs⟩ := analogLoopFl_frame R raw hraw [0, 1, 2, 3, 4, 5, 6] (s, 0) (le_refl _)
    (by norm_num)
  refine ⟨?_, rfl, fun j => ?_⟩
  · show avgStep R _ _ = _
    rw [fa, fs, bands_sum]
    simp
  · obtain ⟨bv, bd, bp⟩ := analogLoopFl_band R raw j _ (s, 0) bands_nodup (bands_mem j)
    refine ⟨bv, bd, ?_⟩
    show (List.foldl (analogBandFl R raw) (s, 0) [0, 1, 2, 3, 4, 5, 6]).1.spectrumPeaks j =
      peakStep R (s.spectrumPeaks j)
        ((List.foldl (analogBandFl R raw) (s, 0) [0, 1, 2, 3, 4, 5, 6]).1.spectrumDecay j)
    rw [bp, bd]

/-- The two clamps of `gainOf` written out. -/
theorem gainOf_eq (R : Rounding) (a : ℚ) :
    gainOf R a =
      (if (if a = 0 then 15 else min 15 (R.single (R.double (270 / a)))) < R.double (1 / 10)
        then R.single (R.double (1 / 10))
        else (if a = 0 then 15 else min 15 (R.single (R.double (270 / a))))) := by
  have hmin : ∀ q : ℚ, (if q > 15 then (15 : ℚ) else q) = min 15 q := by
    intro q
    split_ifs with h
    · exact (min_eq_left (le_of_lt h)).symm
    · exact (min_eq_right (not_lt.mp h)).symm
  simp only [gainOf, GAINUPPERLIMIT, GAINLOWERLIMIT, Rounding.lit, hmin]

/-- C12 as stated is false of the code: the value smoothed into
`spectrumDecay[i]` is the truncated `float` product, not the truncated exact
product.  With all bands reading 711, before call 16 the stored gain is
`15642813 / 2^24`; band 1 has calibrated value 562, `562 * gain` is just below
524 and truncates to 523, but the `float` product rounds to 524.0 and the code
stores and smooths 524. -/
theorem agc_truncates_rounded_product :
    IsADC reading711 ∧ calibrated 1 (reading711 1) = 562 ∧
      (holdAnalogsFl host reading711 15).gainAGC = 15642813 / 16777216 ∧
      ⌊((calibrated 1 (reading711 1) : Nat) : ℚ) * (holdAnalogsFl host reading711 15).gainAGC⌋₊
        = 523 ∧
      (doAnalogsFl host reading711 (holdAnalogsFl host reading711 15)).spectrumValue 1 = 524 ∧
      (doAnalogsFl host reading711 (holdAnalogsFl host reading711 15)).spectrumDecay 1 =
        decayStep host ((holdAnalogsFl host reading711 15).spectrumDecay 1) 524 ∧
      (doAnalogsFl host reading711 (holdAnalogsFl host reading711 15)).spectrumDecay 1 ≠
        decayStep host ((holdAnalogsFl host reading711 15).spectrumDecay 1) 523 := by
  refine ⟨fun _ => by simp [reading711], by decide, by decide!, by decide!, by decide!,
    by decide!, by decide!⟩

/-- C12 amended: one-cycle lag of the AGC, for every rounding and every
pre-state.  In a call on ADC readings the value stored in `spectrumValue[i]`
and smoothed into `spectrumDecay[i]` is the `float` product of the calibrated
value and the gain held before the call (0 before the first call), truncated
to `unsigned int`; the new peak follows from the new decayed value; the new
`audioAvg` is `(1.0 - 0.004) * audioAvg + 0.004 * (analogsum / 7.0)` with
`analogsum` the sum of this call's calibrated values, and the new gain is
`270.0 / audioAvg'` stored as `float` and clamped to [0.1, 15].  Hence the new
gain does not depend on the old gain, and the new stored, decayed and peak
values do not depend on `audioAvg`, from which the new gain is computed. -/
theorem agc_lag_rounded (R : Rounding) (raw : Fin 7 → Nat) (hraw : IsADC raw)
    (s : AudioState) :
    (∀ i,
      (doAnalogsFl R raw s).spectrumValue i =
          u16 ⌊R.single (R.single (calibrated i (raw i) : ℚ) * s.gainAGC)⌋₊ ∧
      (doAnalogsFl R raw s).spectrumDecay i =
          R.single (R.double (R.double (R.oneMinus SPECTRUMSMOOTH * s.spectrumDecay i) +
            R.double (R.lit SPECTRUMSMOOTH *
              R.double ((doAnalogsFl R raw s).spectrumValue i : ℚ)))) ∧
      (doAnalogsFl R raw s).spectrumPeaks i =
          R.single (R.double (max (s.spectrumPeaks i) ((doAnalogsFl R raw s).spectrumDecay i) *
            R.oneMinus PEAKDECAY))) ∧
    (doAnalogsFl R raw s).audioAvg =
        R.single (R.double (R.double (R.oneMinus AGCSMOOTH * s.audioAvg) +
          R.double (R.lit AGCSMOOTH * R.double (((∑ i, calibrated i (raw i) : Nat) : ℚ) / 7)))) ∧
    (doAnalogsFl R raw s).gainAGC =
        (if (if (doAnalogsFl R raw s).audioAvg = 0 then 15
              else min 15 (R.single (R.double (270 / (doAnalogsFl R raw s).audioAvg))))
            < R.double (1 / 10)
          then R.single (R.double (1 / 10))
          else (if (doAnalogsFl R raw s).audioAvg = 0 then 15
              else min 15 (R.single (R.double (270 / (doAnalogsFl R raw s).audioAvg))))) ∧
    (audioInit.gainAGC = 0 ∧
      (R.single 0 = 0 → ∀ i, (doAnalogsFl R raw audioInit).spectrumValue i = 0)) ∧
    (∀ g : ℚ,
      (doAnalogsFl R raw { s with gainAGC := g }).gainAGC = (doAnalogsFl R raw s).gainAGC ∧
      (doAnalogsFl R raw { s with gainAGC := g }).audioAvg = (doAnalogsFl R raw s).audioAvg) ∧
    (∀ (a : ℚ) (i : Fin 7),
      (doAnalogsFl R raw { s with audioAvg := a }).spectrumValue i =
          (doAnalogsFl R raw s).spectrumValue i ∧
      (doAnalogsFl R raw { s with audioAvg := a }).spectrumDecay i =
          (doAnalogsFl R raw s).spectrumDecay i ∧
      (doAnalogsFl R raw { s with audioAvg := a }).spectrumPeaks i =
          (doAnalogsFl R raw s).spectrumPeaks i) := by
  obtain ⟨ea, eg, eb⟩ := doAnalogsFl_eq R raw hraw s
  refine ⟨fun i => ⟨?_, ?_, ?_⟩, ?_, ?_, ⟨rfl, fun h0 i => ?_⟩, fun g => ?_, fun a i => ?_⟩
  · rw [(eb i).1]; rfl
  · rw [(eb i).2.1, (eb i).1]; rfl
  · rw [(eb i).2.2]
    simp only [peakStep]
    congr 3
    split_ifs with h
    · exact (max_eq_right (le_of_lt h)).symm
    · exact (max_eq_left (not_lt.mp h)).symm
  · rw [ea]
    simp only [avgStep, Int.cast_natCast]
  · rw [eg, gainOf_eq]
  · rw [((doAnalogsFl_eq R raw hraw audioInit).2.2 i).1]
    simp [gained, audioInit, h0, u16]
  · obtain ⟨ea2, eg2, _⟩ := doAnalogsFl_eq R raw hraw { s with gainAGC := g }
    have hav : (doAnalogsFl R raw { s with gainAGC := g }).audioAvg =
        (doAnalogsFl R raw s).audioAvg := by rw [ea2, ea]
    exact ⟨by rw [eg2, eg, hav], hav⟩
  · obtain ⟨_, _, eb2⟩ := doAnalogsFl_eq R raw hraw { s with audioAvg := a }
    obtain ⟨v2, d2, p2⟩ := eb2 i
    obtain ⟨v1, d1, p1⟩ := eb i
    have hv : (doAnalogsFl R raw { s with audioAvg := a }).spectrumValue i =
        (doAnalogsFl R raw s).spectrumValue i := by rw [v2, v1]
    have hd : (doAnalogsFl R raw { s with audioAvg := a }).spectrumDecay i =
        (doAnalogsFl R raw s).spectrumDecay i := by rw [d2, d1]
    exact ⟨hv, hd, by rw [p2, p1, hd]⟩

theorem agc_lag_rounded_witness :
    IsADC reading711 ∧
    ((∀ i,
      (doAnalogsFl host reading711 state711).spectrumValue i =
          u16 ⌊host.single (host.single (calibrated i (reading711 i) : ℚ) *
            state711.gainAGC)⌋₊ ∧
      (doAnalogsFl host reading711 state711).spectrumDecay i =
          host.single (host.double
            (host.double (host.oneMinus SPECTRUMSMOOTH * state711.spectrumDecay i) +
            host.double (host.lit SPECTRUMSMOOTH *
              host.double ((doAnalogsFl host reading711 state711).spectrumValue i : ℚ)))) ∧
      (doAnalogsFl host reading711 state711).spectrumPeaks i =
          host.single (host.double
            (max (state711.spectrumPeaks i)
                ((doAnalogsFl host reading711 state711).spectrumDecay i) *
              host.oneMinus PEAKDECAY))) ∧
    (doAnalogsFl host reading711 state711).audioAvg =
        host.single (host.double (host.double (host.oneMinus AGCSMOOTH * state711.audioAvg) +
          host.double (host.lit AGCSMOOTH *
            host.double (((∑ i, calibrated i (reading711 i) : Nat) : ℚ) / 7)))) ∧
    (doAnalogsFl host reading711 state711).gainAGC =
        (if (if (doAnalogsFl host reading711 state711).audioAvg = 0 then 15
              else min 15 (host.single (host.double
                (270 / (doAnalogsFl host reading711 state711).audioAvg))))
            < host.double (1 / 10)
          then host.single (host.double (1 / 10))
          else (if (doAnalogsFl host reading711 state711).audioAvg = 0 then 15
              else min 15 (host.single (host.double
                (270 / (doAnalogsFl host reading711 state711).audioAvg))))) ∧
    (audioInit.gainAGC = 0 ∧
      (host.single 0 = 0 → ∀ i, (doAnalogsFl host reading711 audioInit).spectrumValue i = 0)) ∧
    (∀ g : ℚ,
      (doAnalogsFl host reading711 { state711 with gainAGC := g }).gainAGC =
        (doAnalogsFl host reading711 state711).gainAGC ∧
      (doAnalogsFl host reading711 { state711 with gainAGC := g }).audioAvg =
        (doAnalogsFl host reading711 state711).audioAvg) ∧
    (∀ (a : ℚ) (i : Fin 7),
      (doAnalogsFl host reading711 { state711 with audioAvg := a }).spectrumValue i =
          (doAnalogsFl host reading711 state711).spectrumValue i ∧
      (doAnalogsFl host reading711 { state711 with audioAvg := a }).spectrumDecay i =
          (doAnalogsFl host reading711 state711).spectrumDecay i ∧
      (doAnalogsFl host reading711 { state711 with audioAvg := a }).spectrumPeaks i =
          (doAnalogsFl host reading711 state711).spectrumPeaks i)) :=
  ⟨fun _ => by simp [reading711],
    agc_lag_rounded host reading711 (fun _ => by simp [reading711]) state711⟩

/-- The rounded run on the constant reading 462: the stored band values after
six calls.  Without rounding band 2 would hold 339. -/
theorem holdAnalogsFl_reading462 :
    (∀ i, (holdAnalogsFl host reading462 6).spectrumValue i =
      ![234, 287, 338, 338, 313, 313, 338] i) ∧
    (holdAnalogs reading462 6).spectrumValue 2 = 339 := by
  decide!

/-! ## Theorems: the rounded doAnalogs under a constant input -/

theorem f32_mono (x y : ℚ) (hx : 0 ≤ x) (hxy : x ≤ y) : f32 x ≤ f32 y :=
  roundFloat_mono 24 (by decide) (-126) x y hx hxy

/-- A 32-bit `double` is regular too. -/
theorem avr_regular : avr.Regular where
  single_zero := roundFloat_zero 24 (-126)
  double_zero := roundFloat_zero 24 (-126)
  single_one := by decide!
  double_one := by decide!
  single_mono := f32_mono
  double_mono := f32_mono
  grid := ⟨pow2 (-126 - ((24 : Nat) - 1)), pow2_pos _, fun x => roundFloat_grid 24 (-126) x⟩
  avg_bound := by decide!
  decay_bound := by decide!
  gained_bound := by decide!
  quiet_base := by decide!
  low_limit := by decide!

/-- The arithmetic without rounding gives back `beatDetect`. -/
theorem beatDetectFl_unrounded : beatDetectFl unrounded = beatDetect := rfl

/-- C11 as stated is false of the code, whose differences are rounded `float`
subtractions: with `beatTriggered = 1`, `lastBeatVal = 40`, `beatAvg = 0` and
both low bands at `10 - 2^-20` the call returns 0 and the exact difference
`max(lastBeatVal, beatAvg') - composite` is `30 + 2^-20 > 30`, so the claim has
the flag cleared; the `float` difference rounds to 30.0, which is not above
the dead zone, and the flag stays 1 (with a 64-bit and with a 32-bit
`double`).  Without rounding the flag would be cleared. -/
theorem beatDetect_rounded_deadzone :
    (beatDetectFl host nearTenDecay 100 triggeredAt40).2 = 0 ∧
      max triggeredAt40.lastBeatVal (beatAvgNext nearTenDecay triggeredAt40) -
          beatComposite nearTenDecay > 30 ∧
      triggeredAt40.beatTriggered = 1 ∧
      (beatDetectFl host nearTenDecay 100 triggeredAt40).1.beatTriggered = 1 ∧
      (beatDetectFl avr nearTenDecay 100 triggeredAt40).1.beatTriggered = 1 ∧
      host.single (40 - specComboFl host nearTenDecay) = 30 ∧
      (beatDetect nearTenDecay 100 triggeredAt40).1.beatTriggered = 0 := by
  decide!

/-- C11 amended: one call of `beatDetect` on 32-bit clock values, with
`composite` and `beatAvg'` the `float` values the code computes and every
difference a rounded `float` subtraction.  It returns 1 exactly when
`float(composite - beatAvg') > 20`, `beatTriggered = 0` and the unsigned
32-bit difference `now - lastBeatMillis` exceeds 50; then the flag is 1,
`lastBeatVal = composite` and `lastBeatMillis = now`.  Otherwise it returns
0, keeps `lastBeatMillis`, stores `max(lastBeatVal, beatAvg')`, and the flag
is 0 when `float(max(lastBeatVal, beatAvg') - composite) > 30` and unchanged
when not.  The stored average is `beatAvg'`; when `lastBeatMillis ≤ now` the
unsigned difference is the ordinary one.  This holds for every rounding. -/
theorem beatDetectFl_transition (R : Rounding) (d : Fin 7 → ℚ) (now : Nat) (b : BeatState)
    (hl : b.lastBeatMillis < 4294967296) (hn : now < 4294967296) :
    ((beatDetectFl R d now b).2 = 1 ↔
        (R.single (specComboFl R d - beatAvgFl R d b) > 20 ∧ b.beatTriggered = 0 ∧
          (now + 4294967296 - b.lastBeatMillis) % 4294967296 > 50)) ∧
    ((beatDetectFl R d now b).2 = 1 →
        (beatDetectFl R d now b).1.beatTriggered = 1 ∧
        (beatDetectFl R d now b).1.lastBeatVal = specComboFl R d ∧
        (beatDetectFl R d now b).1.lastBeatMillis = now) ∧
    ((beatDetectFl R d now b).2 ≠ 1 →
        (beatDetectFl R d now b).2 = 0 ∧
        (beatDetectFl R d now b).1.lastBeatMillis = b.lastBeatMillis ∧
        (beatDetectFl R d now b).1.lastBeatVal = max b.lastBeatVal (beatAvgFl R d b) ∧
        (beatDetectFl R d now b).1.beatTriggered =
          (if R.single (max b.lastBeatVal (beatAvgFl R d b) - specComboFl R d) > 30 then 0
           else b.beatTriggered)) ∧
    (beatDetectFl R d now b).1.beatAvg = beatAvgFl R d b ∧
    (b.lastBeatMillis ≤ now →
        ((now + 4294967296 - b.lastBeatMillis) % 4294967296 > 50 ↔
          now - b.lastBeatMillis > 50)) := by
  have hmax : (if b.lastBeatVal < beatAvgFl R d b then beatAvgFl R d b else b.lastBeatVal) =
      max b.lastBeatVal (beatAvgFl R d b) := by
    split_ifs with h
    · exact (max_eq_right (le_of_lt h)).symm
    · exact (max_eq_left (not_lt.mp h)).symm
  have hlast : b.lastBeatMillis ≤ now →
      ((now + 4294967296 - b.lastBeatMillis) % 4294967296 > 50 ↔ now - b.lastBeatMillis > 50) := by
    intro hle
    have : (now + 4294967296 - b.lastBeatMillis) % 4294967296 = now - b.lastBeatMillis := by
      omega
    rw [this]
  by_cases hfire : R.single (specComboFl R d - beatAvgFl R d b) > 20 ∧ b.beatTriggered = 0 ∧
      (now + 4294967296 - b.lastBeatMillis) % 4294967296 > 50
  · have hr : beatDetectFl R d now b =
        ({ beatTriggered := 1, lastBeatVal := specComboFl R d, beatAvg := beatAvgFl R d b,
           lastBeatMillis := now }, 1) := by
      unfold beatDetectFl
      simp only [beatLevel, beatDelay, u32]
      rw [if_pos hfire]
    rw [hr]
    exact ⟨⟨fun _ => hfire, fun _ => rfl⟩, fun _ => ⟨rfl, rfl, rfl⟩, fun h => absurd rfl h, rfl,
      hlast⟩
  · by_cases hdead : R.single (max b.lastBeatVal (beatAvgFl R d b) - specComboFl R d) > 30
    · have hr : beatDetectFl R d now b =
          ({ beatTriggered := 0, lastBeatVal := max b.lastBeatVal (beatAvgFl R d b),
             beatAvg := beatAvgFl R d b, lastBeatMillis := b.lastBeatMillis }, 0) := by
        unfold beatDetectFl
        simp only [hmax, beatLevel, beatDelay, beatDeadzone, u32]
        rw [if_neg hfire, if_pos hdead]
      rw [hr]
      refine ⟨⟨fun h => absurd h (show (0 : Nat) ≠ 1 by decide), fun h => absurd h hfire⟩,
        fun h => absurd h (show (0 : Nat) ≠ 1 by decide), fun _ => ⟨rfl, rfl, rfl, ?_⟩, rfl,
        hlast⟩
      rw [if_pos hdead]
    · have hr : beatDetectFl R d now b =
          ({ beatTriggered := b.beatTriggered,
             lastBeatVal := max b.lastBeatVal (beatAvgFl R d b),
             beatAvg := beatAvgFl R d b, lastBeatMillis := b.lastBeatMillis }, 0) := by
        unfold beatDetectFl
        simp only [hmax, beatLevel, beatDelay, beatDeadzone, u32]
        rw [if_neg hfire, if_neg hdead]
      rw [hr]
      refine ⟨⟨fun h => absurd h (show (0 : Nat) ≠ 1 by decide), fun h => absurd h hfire⟩,
        fun h => absurd h (show (0 : Nat) ≠ 1 by decide), fun _ => ⟨rfl, rfl, rfl, ?_⟩, rfl,
        hlast⟩
      rw [if_neg hdead]

theorem beatDetectFl_transition_witness :
    ((beatDetectFl host nearTenDecay 100 triggeredAt40).2 = 1 ↔
        (host.single (specComboFl host nearTenDecay - beatAvgFl host nearTenDecay triggeredAt40)
            > 20 ∧ triggeredAt40.beatTriggered = 0 ∧
          (100 + 4294967296 - triggeredAt40.lastBeatMillis) % 4294967296 > 50)) ∧
    ((beatDetectFl host nearTenDecay 100 triggeredAt40).2 = 1 →
        (beatDetectFl host nearTenDecay 100 triggeredAt40).1.beatTriggered = 1 ∧
        (beatDetectFl host nearTenDecay 100 triggeredAt40).1.lastBeatVal =
          specComboFl host nearTenDecay ∧
        (beatDetectFl host nearTenDecay 100 triggeredAt40).1.lastBeatMillis = 100) ∧
    ((beatDetectFl host nearTenDecay 100 triggeredAt40).2 ≠ 1 →
        (beatDetectFl host nearTenDecay 100 triggeredAt40).2 = 0 ∧
        (beatDetectFl host nearTenDecay 100 triggeredAt40).1.lastBeatMillis =
          triggeredAt40.lastBeatMillis ∧
        (beatDetectFl host nearTenDecay 100 triggeredAt40).1.lastBeatVal =
          max triggeredAt40.lastBeatVal (beatAvgFl host nearTenDecay triggeredAt40) ∧
        (beatDetectFl host nearTenDecay 100 triggeredAt40).1.beatTriggered =
          (if host.single (max triggeredAt40.lastBeatVal
                (beatAvgFl host nearTenDecay triggeredAt40) - specComboFl host nearTenDecay) > 30
           then 0 else triggeredAt40.beatTriggered)) ∧
    (beatDetectFl host nearTenDecay 100 triggeredAt40).1.beatAvg =
      beatAvgFl host nearTenDecay triggeredAt40 ∧
    (triggeredAt40.lastBeatMillis ≤ 100 →
        ((100 + 4294967296 - triggeredAt40.lastBeatMillis) % 4294967296 > 50 ↔
          100 - triggeredAt40.lastBeatMillis > 50)) :=
  beatDetectFl_transition host nearTenDecay 100 triggeredAt40 (by decide) (by decide)

/-- The refractory test is the unsigned 32-bit difference: after the clock
has wrapped around (`now = 10` with `lastBeatMillis = 1000`) the elapsed time
is `2^32 - 990` and the call returns 1. -/
theorem beatDetectFl_wrapped_clock :
    (beatDetectFl host loudDecay 10 { beatInit with lastBeatMillis := 1000 }).2 = 1 := by
  decide!

end RGBShades
